import Mathlib

/-!
Verification development for the SAMLurai core pipeline.

Shallow embedding of the Go sources:
* `internal/saml/decoder.go` — `Decoder` (base64 fallback chain, DEFLATE, smart decode)
* `internal/saml/parser.go`  — `Parser` (structural SAML parsing, partial parsing)
* `internal/saml/har.go`     — `HARExtractor` (bulk extraction from capture documents)

Modelling conventions:
* Go strings are modelled as `List Char`, Go `[]byte` as `List Nat`.  The
  development identifies a character with its code point, which coincides with
  the byte-level view on the ASCII fragment; every concrete input appearing in
  a theorem below is ASCII.
* External standard-library collaborators (`compress/flate`, `net/url`,
  `encoding/xml`, `time`, `crypto/x509`, `regexp`) are modelled by executable
  Lean functions that follow the documented wire formats / grammars; each such
  model carries a comment naming the Go function it stands for.
* Fallible Go functions returning `(T, error)` become `Except`/`Option`.
-/

/-- Go `string`, modelled as a list of characters (ASCII fragment). -/
abbrev Str := List Char

/-- Go `[]byte`, modelled as a list of byte values. -/
abbrev Bytes := List Nat

/-- Embed a Lean string literal into the model. -/
def str (s : String) : Str := s.data

/-- Go's `[]byte(s)` conversion (ASCII fragment: one byte per character). -/
def bytesOf (s : Str) : Bytes := s.map Char.toNat

/-- Convenience: byte view of a string literal. -/
def bstr (s : String) : Bytes := bytesOf (str s)

/-- Boolean list-prefix test (Go `strings.HasPrefix` once curried). -/
def isPrefixOfB {α} [DecidableEq α] : List α → List α → Bool
  | [], _ => true
  | _ :: _, [] => false
  | a :: as, b :: bs => a = b && isPrefixOfB as bs

/-- Go `strings.Contains hay nd` / `bytes.Contains`: substring occurrence. -/
def containsSub {α} [DecidableEq α] : List α → List α → Bool
  | [], nd => nd.isEmpty
  | a :: t, nd => isPrefixOfB nd (a :: t) || containsSub t nd

/-- Characters trimmed by Go's `strings.TrimSpace` (ASCII white space). -/
def isSpaceChar (c : Char) : Bool :=
  c = ' ' || c = '\t' || c = '\n' || c = '\r' || c.toNat = 11 || c.toNat = 12

/-- Go `strings.TrimSpace` (ASCII fragment). -/
def trimSpace (s : Str) : Str :=
  ((s.dropWhile isSpaceChar).reverse.dropWhile isSpaceChar).reverse

/-- Byte-level white-space test, for `strings.TrimSpace(string(data))`. -/
def isSpaceByte (b : Nat) : Bool :=
  b = 32 || b = 9 || b = 10 || b = 13 || b = 11 || b = 12

/-- Go `strings.TrimSpace` applied to a byte string. -/
def trimSpaceB (s : Bytes) : Bytes :=
  ((s.dropWhile isSpaceByte).reverse.dropWhile isSpaceByte).reverse

/-- Go `strings.ToLower` (ASCII fragment). -/
def toLowerChar (c : Char) : Char :=
  if 'A' ≤ c ∧ c ≤ 'Z' then Char.ofNat (c.toNat + 32) else c

/-- Go `strings.ToLower` on a string (ASCII fragment). -/
def toLowerStr (s : Str) : Str := s.map toLowerChar

/-! ## Base64 (model of Go `encoding/base64`)

The `Decoder` uses `base64.StdEncoding`, `base64.URLEncoding` and
`base64.RawStdEncoding`.  Go's default (non-`Strict`) decoding is modelled:
four-character quanta, `=` padding only in the final quantum, surplus trailing
bits ignored.  The decoder's inputs are cleaned of CR/LF/space before
decoding, so the newline-skipping of Go's decoder needs no separate model. -/

/-- Standard base64 alphabet, value → character. -/
def b64Chr (n : Nat) : Char :=
  if n < 26 then Char.ofNat (65 + n)
  else if n < 52 then Char.ofNat (97 + (n - 26))
  else if n < 62 then Char.ofNat (48 + (n - 52))
  else if n = 62 then '+' else '/'

/-- Standard base64 alphabet, character → value. -/
def b64Idx (c : Char) : Option Nat :=
  if 'A' ≤ c ∧ c ≤ 'Z' then some (c.toNat - 65)
  else if 'a' ≤ c ∧ c ≤ 'z' then some (26 + (c.toNat - 97))
  else if '0' ≤ c ∧ c ≤ '9' then some (52 + (c.toNat - 48))
  else if c = '+' then some 62
  else if c = '/' then some 63
  else none

/-- URL-safe base64 alphabet (`-`/`_` replace `+`/`/`), character → value. -/
def b64UrlIdx (c : Char) : Option Nat :=
  if 'A' ≤ c ∧ c ≤ 'Z' then some (c.toNat - 65)
  else if 'a' ≤ c ∧ c ≤ 'z' then some (26 + (c.toNat - 97))
  else if '0' ≤ c ∧ c ≤ '9' then some (52 + (c.toNat - 48))
  else if c = '-' then some 62
  else if c = '_' then some 63
  else none

/-- Model of `base64.StdEncoding.EncodeToString` (also of `URLEncoding` after
substituting the alphabet; only the standard variant is used by `Encode`). -/
def b64EncodeCore : Bytes → Str
  | [] => []
  | [b0] => [b64Chr (b0 / 4), b64Chr (b0 % 4 * 16), '=', '=']
  | [b0, b1] => [b64Chr (b0 / 4), b64Chr (b0 % 4 * 16 + b1 / 16), b64Chr (b1 % 16 * 4), '=']
  | b0 :: b1 :: b2 :: rest =>
      b64Chr (b0 / 4) :: b64Chr (b0 % 4 * 16 + b1 / 16) ::
        b64Chr (b1 % 16 * 4 + b2 / 64) :: b64Chr (b2 % 64) :: b64EncodeCore rest

/-- Model of padded base64 decoding (`DecodeString` of `StdEncoding` or
`URLEncoding`, parametrised by the alphabet). -/
def b64DecodePad (idx : Char → Option Nat) : Str → Option Bytes
  | [] => some []
  | c0 :: c1 :: c2 :: c3 :: rest =>
    match idx c0, idx c1 with
    | some i0, some i1 =>
      if c2 = '=' then
        if c3 = '=' ∧ rest = [] then some [i0 * 4 + i1 / 16] else none
      else
        match idx c2 with
        | some i2 =>
          if c3 = '=' then
            if rest = [] then some [i0 * 4 + i1 / 16, i1 % 16 * 16 + i2 / 4] else none
          else
            match idx c3 with
            | some i3 =>
              (b64DecodePad idx rest).map
                (fun bs => (i0 * 4 + i1 / 16) :: (i1 % 16 * 16 + i2 / 4) :: (i2 % 4 * 64 + i3) :: bs)
            | none => none
        | none => none
    | _, _ => none
  | _ => none

/-- Model of `base64.RawStdEncoding.DecodeString` (padding-free). -/
def b64DecodeRaw (idx : Char → Option Nat) : Str → Option Bytes
  | [] => some []
  | [c0, c1] =>
    match idx c0, idx c1 with
    | some i0, some i1 => some [i0 * 4 + i1 / 16]
    | _, _ => none
  | [c0, c1, c2] =>
    match idx c0, idx c1, idx c2 with
    | some i0, some i1, some i2 => some [i0 * 4 + i1 / 16, i1 % 16 * 16 + i2 / 4]
    | _, _, _ => none
  | c0 :: c1 :: c2 :: c3 :: rest =>
    match idx c0, idx c1, idx c2, idx c3 with
    | some i0, some i1, some i2, some i3 =>
      (b64DecodeRaw idx rest).map
        (fun bs => (i0 * 4 + i1 / 16) :: (i1 % 16 * 16 + i2 / 4) :: (i2 % 4 * 64 + i3) :: bs)
    | _, _, _, _ => none
  | [_] => none

/-! ## Percent-decoding and query parsing (model of Go `net/url`) -/

/-- Hexadecimal digit value. -/
def hexVal (c : Char) : Option Nat :=
  if '0' ≤ c ∧ c ≤ '9' then some (c.toNat - 48)
  else if 'a' ≤ c ∧ c ≤ 'f' then some (10 + (c.toNat - 97))
  else if 'A' ≤ c ∧ c ≤ 'F' then some (10 + (c.toNat - 65))
  else none

/-- Model of `url.QueryUnescape`: `%XX` escapes, `+` becomes space; malformed
escapes are errors. -/
def queryUnescape : Str → Option Str
  | [] => some []
  | '%' :: a :: b :: rest =>
    match hexVal a, hexVal b with
    | some ha, some hb => (queryUnescape rest).map (fun r => Char.ofNat (16 * ha + hb) :: r)
    | _, _ => none
  | '%' :: _ => none
  | '+' :: rest => (queryUnescape rest).map (fun r => ' ' :: r)
  | c :: rest => (queryUnescape rest).map (fun r => c :: r)

/-- `url.Parse` rejects control characters. -/
def isCtlChar (c : Char) : Bool := c.toNat < 32 || c.toNat = 127

/-- Suffix after the first occurrence of `x` (empty if `x` is absent). -/
def dropThrough (x : Char) : Str → Str
  | [] => []
  | c :: t => if c = x then t else dropThrough x t

/-- Model of `url.Parse(rawURL).RawQuery`: the fragment (after the first `#`)
is split off first; the raw query is what follows the first `?` of the rest.
`url.Parse` fails on control characters (its rarer failure modes are not
modelled; for the extractor a failure merely skips the URL-derived
candidates). -/
def urlRawQuery (u : Str) : Option Str :=
  if u.any isCtlChar then none
  else some (dropThrough '?' (u.takeWhile (· ≠ '#')))

/-- One `&`-separated segment of the `url.ParseQuery` loop: `.error ()` for a
segment that records an error (a `;`, or an invalid escape), `.ok none` for an
empty segment, `.ok (some (k, v))` for a decoded pair (split at the first
`=`). -/
def parseQuerySegment (seg : Str) : Except Unit (Option (Str × Str)) :=
  if seg.contains ';' then .error ()
  else if seg = [] then .ok none
  else
    match queryUnescape (seg.takeWhile (· ≠ '=')), queryUnescape (dropThrough '=' seg) with
    | some k, some v => .ok (some (k, v))
    | _, _ => .error ()

/-- Model of `url.URL.Query()` (which discards the `ParseQuery` error): the
pairs of the well-formed segments.  Go collects them into a `url.Values` map
whose iteration order is unspecified; the model keeps document order, one
admissible order. -/
def parseQueryLenient (q : Str) : List (Str × Str) :=
  (q.splitOn '&').filterMap fun seg =>
    match parseQuerySegment seg with
    | .ok p => p
    | .error _ => none

/-- Model of `url.ParseQuery` as used with `err == nil` checks: `none` as soon
as any segment records an error, otherwise all pairs. -/
def parseQueryStrict (q : Str) : Option (List (Str × Str)) :=
  let segs := q.splitOn '&'
  if segs.all (fun seg => match parseQuerySegment seg with | .ok _ => true | .error _ => false)
  then some (segs.filterMap fun seg => ((parseQuerySegment seg).toOption).join)
  else none

/-! ## DEFLATE (model of Go `compress/flate`)

The repository delegates compression to the external `compress/flate`
collaborator.  It is modelled through the DEFLATE wire format restricted to
*stored* (uncompressed) blocks: `Deflate` emits stored blocks (a final-block
marker byte, LEN and its one's complement NLEN in little-endian order, then
the raw bytes), and `inflate` parses exactly that shape, failing on anything
else.  Huffman-compressed blocks are outside the model. -/

/-- Stored-block header: BFINAL/BTYPE byte, LEN (little endian), NLEN. -/
def storedHeader (fin : Bool) (len : Nat) : Bytes :=
  [(if fin then 1 else 0), len % 256, len / 256, 255 - len % 256, 255 - len / 256]

/-- Model of the `flate.Writer` collaborator: stored blocks of at most
65535 bytes each. -/
def deflateRaw (B : Bytes) : Bytes :=
  if B.length ≤ 65535 then storedHeader true B.length ++ B
  else storedHeader false 65535 ++ B.take 65535 ++ deflateRaw (B.drop 65535)
termination_by B.length
decreasing_by simp [List.length_drop]; omega

/-- Model of the `flate.Reader` collaborator on stored blocks. -/
def inflateLoop (l : Bytes) : Option Bytes :=
  match l with
  | fin :: l0 :: l1 :: n0 :: n1 :: rest =>
    let len := l0 + 256 * l1
    if (fin = 0 ∨ fin = 1) ∧ n0 = 255 - l0 ∧ n1 = 255 - l1 ∧ len ≤ rest.length then
      if fin = 1 then some (rest.take len)
      else (inflateLoop (rest.drop len)).map (fun t => rest.take len ++ t)
    else none
  | _ => none
termination_by l.length
decreasing_by simp [List.length_drop]; omega

/-! ## UTF-8 validity (model of Go `unicode/utf8.Valid`) -/

/-- UTF-8 continuation byte. -/
def isContByte (b : Nat) : Bool := decide (128 ≤ b ∧ b ≤ 191)

/-- Model of `utf8.Valid`: rejects overlong forms, surrogates, and code
points above U+10FFFF. -/
def utf8Valid : Bytes → Bool
  | [] => true
  | b :: rest =>
    if b ≤ 127 then utf8Valid rest
    else if 194 ≤ b ∧ b ≤ 223 then
      match rest with
      | c :: r => isContByte c && utf8Valid r
      | [] => false
    else if 224 ≤ b ∧ b ≤ 239 then
      match rest with
      | c1 :: c2 :: r =>
        let lo2 := if b = 224 then 160 else 128
        let hi2 := if b = 237 then 159 else 191
        decide (lo2 ≤ c1 ∧ c1 ≤ hi2) && isContByte c2 && utf8Valid r
      | _ => false
    else if 240 ≤ b ∧ b ≤ 244 then
      match rest with
      | c1 :: c2 :: c3 :: r =>
        let lo2 := if b = 240 then 144 else 128
        let hi2 := if b = 244 then 143 else 191
        decide (lo2 ≤ c1 ∧ c1 ≤ hi2) && isContByte c2 && isContByte c3 && utf8Valid r
      | _ => false
    else false
termination_by l => l.length
decreasing_by all_goals (simp; try omega)

/-! ## The encoding resolver (`internal/saml/decoder.go`) -/

/-- Error classes of the encoding resolver. -/
inductive DecodeError
  | malformedEncoding
  | decompressionFailed
deriving DecidableEq

/-- The whitespace cleanup at the top of `Decoder.Decode`: remove every
newline, carriage return and space, then `TrimSpace`. -/
def cleanB64Input (s : Str) : Str :=
  trimSpace (s.filter fun c => decide (c ≠ '\n' ∧ c ≠ '\r' ∧ c ≠ ' '))

/-- `Decoder.decodeWithPaddingFix`: append `=`/`==` according to `len % 4`,
try standard base64, fall back to `RawStdEncoding`. -/
def decodeWithPaddingFix (input : Str) : Option Bytes :=
  let padded :=
    if input.length % 4 = 2 then input ++ ['=', '=']
    else if input.length % 4 = 3 then input ++ ['=']
    else input
  match b64DecodePad b64Idx padded with
  | some d => some d
  | none => b64DecodeRaw b64Idx input

/-- `Decoder.Decode`: the ordered base64 fallback chain — standard, URL-safe,
padding repair, then percent-decoding (only if it changes the string)
followed by standard and padding-repaired decoding. -/
def Decode (input : Str) : Except DecodeError Bytes :=
  let cleaned := cleanB64Input input
  match b64DecodePad b64Idx cleaned with
  | some d => .ok d
  | none =>
  match b64DecodePad b64UrlIdx cleaned with
  | some d => .ok d
  | none =>
  match decodeWithPaddingFix cleaned with
  | some d => .ok d
  | none =>
  match queryUnescape cleaned with
  | some urlDecoded =>
    if urlDecoded ≠ cleaned then
      match b64DecodePad b64Idx urlDecoded with
      | some d => .ok d
      | none =>
      match decodeWithPaddingFix urlDecoded with
      | some d => .ok d
      | none => .error .malformedEncoding
    else .error .malformedEncoding
  | none => .error .malformedEncoding

/-- `Decoder.inflate` (the `flate.NewReader`/`io.Copy` collaborator). -/
def inflate (data : Bytes) : Option Bytes := inflateLoop data

/-- `Decoder.DecodeDeflate`: base64 decode, then raw-DEFLATE inflate. -/
def DecodeDeflate (input : Str) : Except DecodeError Bytes :=
  match Decode input with
  | .error e => .error e
  | .ok decoded =>
    match inflate decoded with
    | some out => .ok out
    | none => .error .decompressionFailed

/-- `Decoder.Deflate` (the `flate.NewWriter` collaborator; its Go error
return is always `nil` in the model). -/
def Deflate (data : Bytes) : Bytes := deflateRaw data

/-- `Decoder.Encode`: standard base64 with padding. -/
def Encode (data : Bytes) : Str := b64EncodeCore data

/-- `Decoder.EncodeDeflate`: compress then encode. -/
def EncodeDeflate (data : Bytes) : Str := Encode (Deflate data)

/-- `isBase64Char`: the base64 alphabet including padding and the URL-safe
variants. -/
def isBase64Char (c : Char) : Bool :=
  decide (('A' ≤ c ∧ c ≤ 'Z') ∨ ('a' ≤ c ∧ c ≤ 'z') ∨ ('0' ≤ c ∧ c ≤ '9') ∨
    c = '+' ∨ c = '/' ∨ c = '=' ∨ c = '-' ∨ c = '_')

/-- `IsBase64Encoded`: the cheap lexical filter. -/
def IsBase64Encoded (input : Str) : Bool :=
  let trimmed := trimSpace input
  if trimmed = [] then false
  else if isPrefixOfB (str "<") trimmed then false
  else trimmed.all fun c => isBase64Char c || c = '\n' || c = '\r' || c = ' '

/-- `Decoder.SmartDecode`: auto-detecting decode. -/
def SmartDecode (input : Str) : Except DecodeError Bytes :=
  let trimmed := trimSpace input
  if ¬ IsBase64Encoded trimmed then .ok (bytesOf trimmed)
  else
    match Decode trimmed with
    | .error e => .error e
    | .ok decoded =>
      if utf8Valid decoded ∧ decoded.head? = some 60 then .ok decoded
      else
        match inflate decoded with
        | some inflated =>
          if utf8Valid inflated ∧ inflated.head? = some 60 then .ok inflated
          else .ok decoded
        | none => .ok decoded

/-! ## The regular-expression scan (model of Go `regexp` on the two
`extractSAMLFromHTML` patterns)

The two patterns use only literals, character classes, `?`/`*`/`+` over
character classes, one alternation of literals, and two capturing groups; the
engine below implements exactly these constructs with Go's leftmost-first
(backtracking-priority) match semantics and greedy repetition. -/

/-- Character class; `neg = true` is a negated class (`[^…]`). -/
structure CharCls where
  neg : Bool
  set : List Char
deriving DecidableEq

/-- Class membership. -/
def memCls (cc : CharCls) (c : Char) : Bool :=
  if cc.neg then !(cc.set.contains c) else cc.set.contains c

/-- The regex fragment language needed by the two patterns. -/
inductive RE
  | lit (s : Str)
  | alts (ls : List Str)
  | one (cc : CharCls)
  | star (cc : CharCls)
  | plus (cc : CharCls)
  | opt (cc : CharCls)
  | grp (i : Nat) (r : RE)

/-- Submatch captures: group number → captured text. -/
abbrev Caps := List (Nat × Str)

/-- All ways one fragment can match a prefix of `s`, as (rest, captures), in
backtracking priority order: greedy repetition (longest first), alternatives
first to last. -/
def matchOne : RE → Str → List (Str × Caps)
  | .lit l, s => if isPrefixOfB l s then [(s.drop l.length, [])] else []
  | .alts ls, s =>
    ls.filterMap fun l =>
      if isPrefixOfB l s then some (s.drop l.length, ([] : Caps)) else none
  | .one cc, s =>
    match s with
    | c :: rest => if memCls cc c then [(rest, [])] else []
    | [] => []
  | .star cc, s =>
    let p := s.takeWhile (memCls cc)
    ((List.range (p.length + 1)).reverse).map fun k => (s.drop k, ([] : Caps))
  | .plus cc, s =>
    let p := s.takeWhile (memCls cc)
    ((List.range p.length).reverse.map (· + 1)).map fun k => (s.drop k, ([] : Caps))
  | .opt cc, s =>
    match s with
    | c :: rest => if memCls cc c then [(rest, []), (c :: rest, [])] else [(c :: rest, [])]
    | [] => [([], [])]
  | .grp i r, s =>
    (matchOne r s).map fun rc => (rc.1, rc.2 ++ [(i, s.take (s.length - rc.1.length))])

/-- All ways a sequence of fragments can match a prefix of `s`, in
backtracking priority order. -/
def matchSeq : List RE → Str → List (Str × Caps)
  | [], s => [(s, [])]
  | r :: rs, s =>
    (matchOne r s).flatMap fun sc =>
      (matchSeq rs sc.1).map fun sc' => (sc'.1, sc.2 ++ sc'.2)

/-- Leftmost-first search: the first full match at the earliest start
position, as (captures, rest after the match). -/
def findFrom (pat : List RE) (s : Str) : Option (Caps × Str) :=
  match matchSeq pat s with
  | rc :: _ => some (rc.2, rc.1)
  | [] =>
    match s with
    | [] => none
    | _ :: t => findFrom pat t

/-- Model of `Regexp.FindAllStringSubmatch`: repeated leftmost-first search
resuming after each match (both patterns only produce nonempty matches, so
the fuel bound `s.length + 1` is never the limiting factor). -/
def findAllCaps (pat : List RE) : Nat → Str → List Caps
  | 0, _ => []
  | fuel + 1, s =>
    match findFrom pat s with
    | none => []
    | some (caps, rest) => caps :: findAllCaps pat fuel rest

/-- `["']` -/
def qcls : CharCls := ⟨false, ['"', '\'']⟩

/-- `[^"']` -/
def nqcls : CharCls := ⟨true, ['"', '\'']⟩

/-- `[^>]` -/
def ngt : CharCls := ⟨true, ['>']⟩

/-- The name alternation hard-coded in both patterns. -/
def samlNameAlts : List Str := [str "SAMLResponse", str "SAMLRequest", str "SAMLAssertion"]

/-- `<input[^>]*name=["']?(SAMLResponse|SAMLRequest|SAMLAssertion)["']?[^>]*value=["']([^"']+)["']` -/
def htmlPattern1 : List RE :=
  [.lit (str "<input"), .star ngt, .lit (str "name="), .opt qcls,
   .grp 1 (.alts samlNameAlts), .opt qcls, .star ngt, .lit (str "value="),
   .one qcls, .grp 2 (.plus nqcls), .one qcls]

/-- `<input[^>]*value=["']([^"']+)["'][^>]*name=["']?(SAMLResponse|SAMLRequest|SAMLAssertion)["']?` -/
def htmlPattern2 : List RE :=
  [.lit (str "<input"), .star ngt, .lit (str "value="), .one qcls,
   .grp 1 (.plus nqcls), .one qcls, .star ngt, .lit (str "name="),
   .opt qcls, .grp 2 (.alts samlNameAlts), .opt qcls]

/-- Capture lookup. -/
def lookupCap (i : Nat) (caps : Caps) : Option Str :=
  (caps.find? fun p => decide (p.1 = i)).map (·.2)

/-- Go map insert: overwrite in place, or append. -/
def mapInsert (k v : Str) : List (Str × Str) → List (Str × Str)
  | [] => [(k, v)]
  | (k', v') :: t => if k' = k then (k, v) :: t else (k', v') :: mapInsert k v t

/-- The per-match body of `extractSAMLFromHTML`: read the two capture groups
and store name → value (`match[1]`/`match[2]` swap their roles between the
two patterns, disambiguated by the `SAML` name prefix). -/
def processHTMLMatch (acc : List (Str × Str)) (caps : Caps) : List (Str × Str) :=
  match lookupCap 1 caps, lookupCap 2 caps with
  | some m1, some m2 =>
    if isPrefixOfB (str "SAML") m1 then mapInsert m1 m2 acc else mapInsert m2 m1 acc
  | _, _ => acc

/-- `extractSAMLFromHTML`: run both patterns, read each match's two capture
groups, and store name → value pairs in a map (Go's `map[string]string` has
unspecified iteration order; the model keeps insertion order, one admissible
order). -/
def extractSAMLFromHTML (html : Str) : List (Str × Str) :=
  let acc1 := (findAllCaps htmlPattern1 (html.length + 1) html).foldl processHTMLMatch []
  (findAllCaps htmlPattern2 (html.length + 1) html).foldl processHTMLMatch acc1

/-! ## The bulk extractor (`internal/saml/har.go`) -/

/-- `looksLikeXML`. -/
def looksLikeXML (data : Bytes) : Bool :=
  let trimmed := trimSpaceB data
  isPrefixOfB (bstr "<?xml") trimmed || isPrefixOfB (bstr "<") trimmed

/-- `isSAMLParameter`: the case-insensitive allow-list. -/
def isSAMLParameter (name : Str) : Bool :=
  [str "samlresponse", str "samlrequest", str "samlassertion",
   str "samlart", str "logoutrequest", str "logoutresponse"].any
    fun p => decide (toLowerStr name = p)

/-- `isSAMLXML`: the broad acceptance gate. -/
def isSAMLXML (data : Bytes) : Bool :=
  [bstr "samlp:Response", bstr "saml2p:Response", bstr "samlp:AuthnRequest",
   bstr "saml2p:AuthnRequest", bstr "saml:Assertion", bstr "saml2:Assertion",
   bstr "urn:oasis:names:tc:SAML", bstr "<Response", bstr "<AuthnRequest",
   bstr "<Assertion", bstr "<LogoutRequest", bstr "<LogoutResponse"].any
    fun ind => containsSub data ind

/-- The ordered priority table of `detectSAMLType`. -/
def samlTypeChecks : List (Str × List Str) :=
  [(str "Response", [str "samlp:Response", str "saml2p:Response", str "<Response "]),
   (str "AuthnRequest", [str "samlp:AuthnRequest", str "saml2p:AuthnRequest", str "<AuthnRequest "]),
   (str "LogoutRequest", [str "samlp:LogoutRequest", str "saml2p:LogoutRequest", str "<LogoutRequest "]),
   (str "LogoutResponse", [str "samlp:LogoutResponse", str "saml2p:LogoutResponse", str "<LogoutResponse "]),
   (str "Assertion", [str "saml:Assertion", str "saml2:Assertion", str "<Assertion "])]

/-- The nested loop of `detectSAMLType` over the priority table. -/
def detectLoop (data : Bytes) : List (Str × List Str) → Str
  | [] => str "Unknown"
  | (tn, inds) :: rest =>
    if inds.any (fun ind => containsSub data (bytesOf ind)) then tn else detectLoop data rest

/-- `detectSAMLType`. -/
def detectSAMLType (data : Bytes) : Str := detectLoop data samlTypeChecks

/-- HAR data model (`har.go`); unknown/absent JSON fields are zero values,
`postData` is a nullable pointer. -/
structure HARNameValue where
  name : Str
  value : Str
deriving DecidableEq

structure HARPostData where
  mimeType : Str
  text : Str
  params : List HARNameValue
deriving DecidableEq

structure HARContent where
  mimeType : Str
  text : Str
deriving DecidableEq

structure HARRequest where
  method : Str
  url : Str
  postData : Option HARPostData
  queryString : List HARNameValue
deriving DecidableEq

structure HARResponse where
  content : HARContent
deriving DecidableEq

structure HAREntry where
  request : HARRequest
  response : HARResponse
deriving DecidableEq

structure HARLog where
  entries : List HAREntry
deriving DecidableEq

structure HAR where
  log : HARLog
deriving DecidableEq

/-- `ExtractedSAML` (`Typ` stands for the Go field `Type`). -/
structure ExtractedSAML where
  Index : Nat
  Typ : Str
  Source : Str
  URL : Str
  ParameterName : Str
  RawValue : Str
  DecodedXML : Bytes
  WasDeflated : Bool
deriving DecidableEq

/-- The index-independent core of `tryExtractSAML`: reject the empty value,
percent-decode once if that changes the value, base64-decode, fall back to
DEFLATE when the decoded bytes are not XML-shaped, gate on `isSAMLXML`.
Returns the (possibly percent-decoded) value, the XML bytes and the deflate
flag. -/
def tryDecodeCandidate (value : Str) : Option (Str × Bytes × Bool) :=
  if value = [] then none
  else
    let value :=
      match queryUnescape value with
      | some decoded => if decoded ≠ value then decoded else value
      | none => value
    match Decode value with
    | .error _ => none
    | .ok xmlData =>
      if ¬ looksLikeXML xmlData then
        match DecodeDeflate value with
        | .error _ => none
        | .ok xmlData2 => if isSAMLXML xmlData2 then some (value, xmlData2, true) else none
      else if isSAMLXML xmlData then some (value, xmlData, false) else none

/-- `tryExtractSAML`, with the shared `*index` counter threaded explicitly:
returns the optional result and the updated counter. -/
def tryExtractSAML (value paramName requestURL source : Str) (index : Nat) :
    Option ExtractedSAML × Nat :=
  match tryDecodeCandidate value with
  | none => (none, index)
  | some (v, xmlData, wasDeflated) =>
    (some { Index := index, Typ := detectSAMLType xmlData, Source := source,
            URL := requestURL, ParameterName := paramName, RawValue := v,
            DecodedXML := xmlData, WasDeflated := wasDeflated }, index + 1)

/-- A parameter loop of the extractor: filter by `isSAMLParameter`, then
`tryExtractSAML` each value, appending results in order (an unaccepted
candidate leaves the counter unchanged). -/
def extractParamLoop (pairs : List (Str × Str)) (requestURL source : Str) (i : Nat) :
    List ExtractedSAML × Nat :=
  match pairs with
  | [] => ([], i)
  | (n, v) :: rest =>
    if isSAMLParameter n then
      let t := tryExtractSAML v n requestURL source i
      let rs := extractParamLoop rest requestURL source t.2
      match t.1 with
      | some r => (r :: rs.1, rs.2)
      | none => rs
    else extractParamLoop rest requestURL source i

/-- The HTML-match loop of `extractFromResponseBody` (no name filter). -/
def extractHTMLLoop (pairs : List (Str × Str)) (requestURL : Str) (i : Nat) :
    List ExtractedSAML × Nat :=
  match pairs with
  | [] => ([], i)
  | (n, v) :: rest =>
    let t := tryExtractSAML v n requestURL (str "response-body") i
    let rs := extractHTMLLoop rest requestURL t.2
    match t.1 with
    | some r => (r :: rs.1, rs.2)
    | none => rs

/-- A single raw-text candidate (empty parameter name). -/
def extractRawCandidate (text requestURL source : Str) (i : Nat) :
    List ExtractedSAML × Nat :=
  let t := tryExtractSAML text [] requestURL source i
  match t.1 with
  | some r => ([r], t.2)
  | none => ([], t.2)

/-- The name/value array as plain pairs. -/
def nvPairs (l : List HARNameValue) : List (Str × Str) := l.map fun p => (p.name, p.value)

/-- The query pairs `url.Parse(requestURL).Query()` yields (empty when
`url.Parse` fails). -/
def urlQueryPairs (requestURL : Str) : List (Str × Str) :=
  match urlRawQuery requestURL with
  | some q => parseQueryLenient q
  | none => []

/-- `extractFromQueryParams`: candidates parsed from the URL itself, then the
`queryString` array. -/
def extractFromQueryParams (params : List HARNameValue) (requestURL : Str) (i : Nat) :
    List ExtractedSAML × Nat :=
  let a := extractParamLoop (urlQueryPairs requestURL) requestURL (str "request-query") i
  let b := extractParamLoop (nvPairs params) requestURL (str "request-query") a.2
  (a.1 ++ b.1, b.2)

/-- `extractFromPostData`: the `params` array, the form-urlencoded body, then
the raw body as a single candidate. -/
def extractFromPostData (postData : HARPostData) (requestURL : Str) (i : Nat) :
    List ExtractedSAML × Nat :=
  let a := extractParamLoop (nvPairs postData.params) requestURL (str "request-body") i
  let bodyPairs :=
    if containsSub postData.mimeType (str "application/x-www-form-urlencoded") then
      match parseQueryStrict postData.text with
      | some pairs => pairs
      | none => []
    else []
  let b := extractParamLoop bodyPairs requestURL (str "request-body") a.2
  let c := extractRawCandidate postData.text requestURL (str "request-body") b.2
  (a.1 ++ b.1 ++ c.1, c.2)

/-- `extractFromResponseBody`: HTML hidden-field matches, then the raw body. -/
def extractFromResponseBody (content : HARContent) (requestURL : Str) (i : Nat) :
    List ExtractedSAML × Nat :=
  if content.text = [] then ([], i)
  else
    let a := extractHTMLLoop (extractSAMLFromHTML content.text) requestURL i
    let b := extractRawCandidate content.text requestURL (str "response-body") a.2
    (a.1 ++ b.1, b.2)

/-- One entry of the `ExtractFromHAR` loop: query parameters, then POST data,
then the response body. -/
def extractFromEntry (entry : HAREntry) (i : Nat) : List ExtractedSAML × Nat :=
  let a := extractFromQueryParams entry.request.queryString entry.request.url i
  let b :=
    match entry.request.postData with
    | some pd => extractFromPostData pd entry.request.url a.2
    | none => ([], a.2)
  let c := extractFromResponseBody entry.response.content entry.request.url b.2
  (a.1 ++ b.1 ++ c.1, c.2)

/-- The entry loop, threading the single monotonic counter. -/
def extractEntriesLoop (entries : List HAREntry) (i : Nat) : List ExtractedSAML × Nat :=
  match entries with
  | [] => ([], i)
  | e :: rest =>
    let a := extractFromEntry e i
    let b := extractEntriesLoop rest a.2
    (a.1 ++ b.1, b.2)

/-- `ExtractFromHAR`.  The Go function first unmarshals the capture JSON
(invalid top-level JSON is a hard error); the model receives the
already-structured document — exactly the inputs whose top-level JSON
parses. -/
def ExtractFromHAR (har : HAR) : List ExtractedSAML :=
  (extractEntriesLoop har.log.entries 1).1

/-! ## XML (model of Go `encoding/xml` as used by `parser.go`)

A recursive-descent well-formedness parser producing an element tree, plus the
field-matching rules of `xml.Unmarshal` for the struct shapes declared in
`parser.go`.  Matching follows `encoding/xml` with namespace-free field tags:
elements and attributes match on local names; when an element repeats, a
non-slice field is unmarshalled repeatedly so the last occurrence wins, while
a slice field collects every occurrence.  Character data of an element is
taken as its top-level text (entity references and exotic markup are outside
the model). -/

/-- A parsed XML node: element with qualified name split at the first `:`
(empty prefix when unprefixed), attributes (local name, value) and children;
or character data. -/
inductive Xml where
  | elem (pfx nm : Str) (attrs : List (Str × Str)) (children : List Xml)
  | txt (s : Str)

/-- XML name characters (simplified NameChar set, `:` included before
splitting). -/
def xmlNameChar (c : Char) : Bool :=
  decide (('a' ≤ c ∧ c ≤ 'z') ∨ ('A' ≤ c ∧ c ≤ 'Z') ∨ ('0' ≤ c ∧ c ≤ '9') ∨
    c = '_' ∨ c = '-' ∨ c = '.' ∨ c = ':')

/-- Split a qualified name at the first `:`. -/
def splitQName (s : Str) : Str × Str :=
  if s.contains ':' then (s.takeWhile (· ≠ ':'), dropThrough ':' s) else ([], s)

/-- Suffix after the first occurrence of the delimiter string (`none` when
absent). -/
def dropToSub (nd : Str) : Str → Option Str
  | [] => none
  | c :: t => if isPrefixOfB nd (c :: t) then some ((c :: t).drop nd.length) else dropToSub nd t

mutual

/-- Parse one element starting at `<`. -/
def xmlParseElement (fuel : Nat) (s : Str) : Option (Xml × Str) :=
  match fuel with
  | 0 => none
  | fuel + 1 =>
    if isPrefixOfB (str "<") s then
      let s1 := s.drop 1
      let qn := s1.takeWhile xmlNameChar
      if qn = [] then none
      else xmlParseAttrs fuel qn [] (s1.drop qn.length)
    else none

/-- Attribute loop of a start tag, then `/>` or `>` children `</name>`. -/
def xmlParseAttrs (fuel : Nat) (qn : Str) (attrs : List (Str × Str)) (s : Str) :
    Option (Xml × Str) :=
  match fuel with
  | 0 => none
  | fuel + 1 =>
    let s := s.dropWhile isSpaceChar
    if isPrefixOfB (str "/>") s then
      some (.elem (splitQName qn).1 (splitQName qn).2 attrs.reverse [], s.drop 2)
    else if isPrefixOfB (str ">") s then
      match xmlParseChildren fuel (s.drop 1) with
      | some (kids, rest) =>
        if isPrefixOfB (str "</") rest then
          let rest1 := rest.drop 2
          let eqn := rest1.takeWhile xmlNameChar
          let rest2 := (rest1.drop eqn.length).dropWhile isSpaceChar
          if eqn = qn ∧ isPrefixOfB (str ">") rest2 then
            some (.elem (splitQName qn).1 (splitQName qn).2 attrs.reverse kids, rest2.drop 1)
          else none
        else none
      | none => none
    else
      let an := s.takeWhile xmlNameChar
      if an = [] then none
      else
        let s1 := (s.drop an.length).dropWhile isSpaceChar
        if isPrefixOfB (str "=") s1 then
          let s2 := (s1.drop 1).dropWhile isSpaceChar
          match s2 with
          | q :: s3 =>
            if q = '"' ∨ q = '\'' then
              let v := s3.takeWhile (· ≠ q)
              let s4 := s3.drop v.length
              if isPrefixOfB [q] s4 then
                xmlParseAttrs fuel qn (((splitQName an).2, v) :: attrs) (s4.drop 1)
              else none
            else none
          | [] => none
        else none

/-- Children of an element up to (not consuming) the closing tag. -/
def xmlParseChildren (fuel : Nat) (s : Str) : Option (List Xml × Str) :=
  match fuel with
  | 0 => none
  | fuel + 1 =>
    if isPrefixOfB (str "</") s then some ([], s)
    else if isPrefixOfB (str "<!--") s then
      match dropToSub (str "-->") s with
      | some rest => xmlParseChildren fuel rest
      | none => none
    else if isPrefixOfB (str "<?") s then
      match dropToSub (str "?>") s with
      | some rest => xmlParseChildren fuel rest
      | none => none
    else if isPrefixOfB (str "<") s then
      match xmlParseElement fuel s with
      | some (x, rest) =>
        match xmlParseChildren fuel rest with
        | some (kids, rest') => some (x :: kids, rest')
        | none => none
      | none => none
    else
      match s with
      | [] => none
      | c :: t =>
        let tx := (c :: t).takeWhile (· ≠ '<')
        match xmlParseChildren fuel ((c :: t).drop tx.length) with
        | some (kids, rest) => some (.txt tx :: kids, rest)
        | none => none

end

/-- Find and parse the root element, skipping prolog instructions, comments
and leading character data (`xml.Unmarshal` stops after the root element, so
trailing input is not inspected). -/
def xmlParseRoot (fuel : Nat) (s : Str) : Option Xml :=
  match fuel with
  | 0 => none
  | fuel + 1 =>
    if isPrefixOfB (str "<!--") s then
      match dropToSub (str "-->") s with
      | some rest => xmlParseRoot fuel rest
      | none => none
    else if isPrefixOfB (str "<?") s then
      match dropToSub (str "?>") s with
      | some rest => xmlParseRoot fuel rest
      | none => none
    else if isPrefixOfB (str "<") s then
      (xmlParseElement fuel s).map (·.1)
    else
      match s with
      | [] => none
      | c :: t => xmlParseRoot fuel ((c :: t).drop (((c :: t).takeWhile (· ≠ '<')).length))

/-- Model of the `encoding/xml` front end: parse the root element of a
document.  `none` is a well-formedness (syntax) error. -/
def xmlParse (raw : Str) : Option Xml := xmlParseRoot (4 * raw.length + 16) raw

/-- Local name of a node. -/
def Xml.localName : Xml → Str
  | .elem _ nm _ _ => nm
  | .txt _ => []

/-- Children of a node. -/
def Xml.childrenOf : Xml → List Xml
  | .elem _ _ _ kids => kids
  | .txt _ => []

/-- Attributes of a node. -/
def Xml.attrsOf : Xml → List (Str × Str)
  | .elem _ _ attrs _ => attrs
  | .txt _ => []

/-- All element children with the given local name. -/
def childrenNamed (nm : String) (x : Xml) : List Xml :=
  x.childrenOf.filter fun k =>
    match k with
    | .elem _ n _ _ => decide (n = str nm)
    | .txt _ => false

/-- The last element child with the given local name (repeated matches of a
non-slice field: last occurrence wins). -/
def lastChildNamed (nm : String) (x : Xml) : Option Xml :=
  (childrenNamed nm x).getLast?

/-- Attribute value by local name (`""` when absent). -/
def attrNamed (nm : String) (x : Xml) : Str :=
  (((x.attrsOf.filter fun p => decide (p.1 = str nm)).getLast?).map (·.2)).getD []

/-- Top-level character data of an element. -/
def charData (x : Xml) : Str :=
  x.childrenOf.flatMap fun k =>
    match k with
    | .txt s => s
    | .elem _ _ _ _ => []

/-- Character data of the last child element with the given name (a Go
`string` field with an element tag; `""` when absent). -/
def childText (nm : String) (x : Xml) : Str :=
  ((lastChildNamed nm x).map charData).getD []

/-! ### The unmarshal targets of `parser.go` -/

/-- `samlStatus`. -/
structure SamlStatusRec where
  statusCodeValue : Str
  statusMessage : Str

/-- `xmldsigSignature`. -/
structure XmldsigSignatureRec where
  signatureMethodAlg : Str
  digestMethodAlg : Str
  x509Certificate : Str

/-- `samlSubject`. -/
structure SamlSubjectRec where
  nameIDValue : Str
  nameIDFormat : Str
  spNameQualifier : Str

/-- `samlConditions`. -/
structure SamlConditionsRec where
  notBefore : Str
  notOnOrAfter : Str
  audiences : List Str

/-- `samlAuthnStatement`. -/
structure SamlAuthnStatementRec where
  authnInstant : Str
  sessionIndex : Str
  sessionNotOnOrAfter : Str
  authnContextClassRef : Str

/-- `samlAttribute`. -/
structure SamlAttributeRec where
  name : Str
  friendlyName : Str
  nameFormat : Str
  values : List Str

/-- `samlAssertion`. -/
structure SamlAssertionRec where
  id : Str
  issueInstant : Str
  issuer : Str
  subject : Option SamlSubjectRec
  conditions : Option SamlConditionsRec
  authnStatement : Option SamlAuthnStatementRec
  attributes : Option (List SamlAttributeRec)
  signature : Option XmldsigSignatureRec

/-- `samlResponse`. -/
structure SamlResponseRec where
  id : Str
  issueInstant : Str
  destination : Str
  inResponseTo : Str
  issuer : Str
  status : SamlStatusRec
  assertion : Option SamlAssertionRec
  signature : Option XmldsigSignatureRec

/-- `samlNameIDPolicy`. -/
structure SamlNameIDPolicyRec where
  format : Str
  allowCreate : Str
  spNameQualifier : Str

/-- `samlRequestedAttribute`. -/
structure SamlRequestedAttrRec where
  name : Str
  friendlyName : Str
  nameFormat : Str
  isRequired : Str

/-- `samlAuthnRequest`. -/
structure SamlAuthnRequestRec where
  id : Str
  version : Str
  issueInstant : Str
  destination : Str
  acsURL : Str
  protocolBinding : Str
  forceAuthn : Str
  isPassive : Str
  issuer : Str
  nameIDPolicy : Option SamlNameIDPolicyRec
  signature : Option XmldsigSignatureRec
  extensions : Option (List SamlRequestedAttrRec)

/-- Unmarshal a `Status` element. -/
def unmarshalStatus (x : Xml) : SamlStatusRec :=
  { statusCodeValue := (((lastChildNamed "StatusCode" x).map (attrNamed "Value"))).getD []
  , statusMessage := childText "StatusMessage" x }

/-- Unmarshal a `Signature` element. -/
def unmarshalSignature (x : Xml) : XmldsigSignatureRec :=
  let si := lastChildNamed "SignedInfo" x
  { signatureMethodAlg := ((si.bind (lastChildNamed "SignatureMethod")).map (attrNamed "Algorithm")).getD []
  , digestMethodAlg :=
      (((si.bind (lastChildNamed "Reference")).bind (lastChildNamed "DigestMethod")).map
        (attrNamed "Algorithm")).getD []
  , x509Certificate :=
      (((lastChildNamed "KeyInfo" x).bind (lastChildNamed "X509Data")).map
        (childText "X509Certificate")).getD [] }

/-- Unmarshal a `Subject` element. -/
def unmarshalSubject (x : Xml) : SamlSubjectRec :=
  let nid := lastChildNamed "NameID" x
  { nameIDValue := (nid.map charData).getD []
  , nameIDFormat := (nid.map (attrNamed "Format")).getD []
  , spNameQualifier := (nid.map (attrNamed "SPNameQualifier")).getD [] }

/-- Unmarshal a `Conditions` element. -/
def unmarshalConditions (x : Xml) : SamlConditionsRec :=
  { notBefore := attrNamed "NotBefore" x
  , notOnOrAfter := attrNamed "NotOnOrAfter" x
  , audiences := (childrenNamed "AudienceRestriction" x).flatMap fun ar =>
      (childrenNamed "Audience" ar).map charData }

/-- Unmarshal an `AuthnStatement` element. -/
def unmarshalAuthnStatement (x : Xml) : SamlAuthnStatementRec :=
  { authnInstant := attrNamed "AuthnInstant" x
  , sessionIndex := attrNamed "SessionIndex" x
  , sessionNotOnOrAfter := attrNamed "SessionNotOnOrAfter" x
  , authnContextClassRef := ((lastChildNamed "AuthnContext" x).map
      (childText "AuthnContextClassRef")).getD [] }

/-- Unmarshal an `Attribute` element. -/
def unmarshalAttribute (x : Xml) : SamlAttributeRec :=
  { name := attrNamed "Name" x
  , friendlyName := attrNamed "FriendlyName" x
  , nameFormat := attrNamed "NameFormat" x
  , values := (childrenNamed "AttributeValue" x).map charData }

/-- The fields of `samlAssertion` from an (already matched) element. -/
def unmarshalAssertionFields (x : Xml) : SamlAssertionRec :=
  { id := attrNamed "ID" x
  , issueInstant := attrNamed "IssueInstant" x
  , issuer := childText "Issuer" x
  , subject := (lastChildNamed "Subject" x).map unmarshalSubject
  , conditions := (lastChildNamed "Conditions" x).map unmarshalConditions
  , authnStatement := (lastChildNamed "AuthnStatement" x).map unmarshalAuthnStatement
  , attributes :=
      if (childrenNamed "AttributeStatement" x).isEmpty then none
      else some ((childrenNamed "AttributeStatement" x).flatMap fun st =>
        (childrenNamed "Attribute" st).map unmarshalAttribute)
  , signature := (lastChildNamed "Signature" x).map unmarshalSignature }

/-- `xml.Unmarshal` into `samlResponse`: the root's local name must be
`Response` (the struct's `XMLName` tag carries no namespace, so any prefix
matches). -/
def unmarshalResponse (x : Xml) : Option SamlResponseRec :=
  if x.localName = str "Response" then
    some { id := attrNamed "ID" x
         , issueInstant := attrNamed "IssueInstant" x
         , destination := attrNamed "Destination" x
         , inResponseTo := attrNamed "InResponseTo" x
         , issuer := childText "Issuer" x
         , status := ((lastChildNamed "Status" x).map unmarshalStatus).getD ⟨[], []⟩
         , assertion := (lastChildNamed "Assertion" x).map unmarshalAssertionFields
         , signature := (lastChildNamed "Signature" x).map unmarshalSignature }
  else none

/-- `xml.Unmarshal` into `samlAssertion` at the root. -/
def unmarshalAssertionRoot (x : Xml) : Option SamlAssertionRec :=
  if x.localName = str "Assertion" then some (unmarshalAssertionFields x) else none

/-- `xml.Unmarshal` into `samlAuthnRequest` at the root. -/
def unmarshalAuthnRequest (x : Xml) : Option SamlAuthnRequestRec :=
  if x.localName = str "AuthnRequest" then
    some { id := attrNamed "ID" x
         , version := attrNamed "Version" x
         , issueInstant := attrNamed "IssueInstant" x
         , destination := attrNamed "Destination" x
         , acsURL := attrNamed "AssertionConsumerServiceURL" x
         , protocolBinding := attrNamed "ProtocolBinding" x
         , forceAuthn := attrNamed "ForceAuthn" x
         , isPassive := attrNamed "IsPassive" x
         , issuer := childText "Issuer" x
         , nameIDPolicy := (lastChildNamed "NameIDPolicy" x).map fun p =>
             ⟨attrNamed "Format" p, attrNamed "AllowCreate" p, attrNamed "SPNameQualifier" p⟩
         , signature := (lastChildNamed "Signature" x).map unmarshalSignature
         , extensions :=
             if (childrenNamed "Extensions" x).isEmpty then none
             else some ((childrenNamed "Extensions" x).flatMap fun e =>
               (childrenNamed "RequestedAttribute" e).map fun ra =>
                 ⟨attrNamed "Name" ra, attrNamed "FriendlyName" ra, attrNamed "NameFormat" ra,
                  attrNamed "isRequired" ra⟩) }
  else none

/-! ## Time, certificates, and the normalized record (`types.go`) -/

/-- Model of Go `time.Time` as used here: an opaque instant carrying its
RFC3339 source text. -/
structure Time where
  raw : Str
deriving DecidableEq

/-- Fine-grained digit test. -/
def isDigitChar (c : Char) : Bool := decide ('0' ≤ c ∧ c ≤ '9')

/-- Model of `time.Parse(time.RFC3339, s)` as a structural grammar check
(date `-` date `-` date `T` time `:` time `:` time, optional fraction, `Z` or
a numeric offset).  Calendar range checks are not modelled; no claim depends
on a timestamp value. -/
def rfc3339Valid (s : Str) : Bool :=
  match s with
  | y1 :: y2 :: y3 :: y4 :: '-' :: m1 :: m2 :: '-' :: d1 :: d2 :: 'T' ::
      h1 :: h2 :: ':' :: n1 :: n2 :: ':' :: s1 :: s2 :: rest =>
    [y1, y2, y3, y4, m1, m2, d1, d2, h1, h2, n1, n2, s1, s2].all isDigitChar &&
      (let afterFrac :=
        match rest with
        | '.' :: r =>
          let f := r.takeWhile isDigitChar
          if f = [] then none else some (r.drop f.length)
        | r => some r
      match afterFrac with
      | some ['Z'] => true
      | some (z :: a1 :: a2 :: ':' :: b1 :: b2 :: []) =>
        decide (z = '+' ∨ z = '-') && [a1, a2, b1, b2].all isDigitChar
      | _ => false)
  | _ => false

/-- `time.Parse(time.RFC3339, ·)` returning the instant. -/
def rfc3339Parse (s : Str) : Option Time :=
  if rfc3339Valid s then some ⟨s⟩ else none

/-- `CertificateInfo` (display-only certificate metadata). -/
structure CertificateInfo where
  subject : Str
  issuer : Str
  notBefore : Time
  notAfter : Time
  serial : Str
deriving DecidableEq

/-- Model of the external `x509.ParseCertificate` collaborator.  Its output
is display-only data no claim depends on; the model conservatively reports a
parse failure for every byte sequence, exercising the `parseSignature` path
where certificate-parse failure is swallowed. -/
def x509ParseCertificate (_der : Bytes) : Option CertificateInfo := none

/-- `Status`. -/
structure Status where
  StatusCode : Str
  StatusMessage : Str
deriving DecidableEq

/-- `Subject`. -/
structure Subject where
  NameID : Str
  NameIDFormat : Str
  SPNameQualifier : Str
deriving DecidableEq

/-- `Conditions`. -/
structure Conditions where
  NotBefore : Option Time
  NotOnOrAfter : Option Time
  AudienceRestriction : List Str
deriving DecidableEq

/-- `AuthnStatement`. -/
structure AuthnStatement where
  AuthnInstant : Option Time
  SessionIndex : Str
  SessionNotOnOrAfter : Option Time
  AuthnContextClassRef : Str
deriving DecidableEq

/-- `Attribute`. -/
structure Attribute where
  Name : Str
  FriendlyName : Str
  NameFormat : Str
  Values : List Str
deriving DecidableEq

/-- `SignatureInfo`. -/
structure SignatureInfo where
  Signed : Bool
  SignatureMethod : Str
  DigestMethod : Str
  CertInfo : Option CertificateInfo
deriving DecidableEq

/-- `NameIDPolicy`. -/
structure NameIDPolicy where
  Format : Str
  AllowCreate : Option Bool
  SPNameQualifier : Str
deriving DecidableEq

/-- `RequestedAttribute`. -/
structure RequestedAttribute where
  Name : Str
  FriendlyName : Str
  NameFormat : Str
  IsRequired : Option Bool
deriving DecidableEq

/-- The assertion-level record: the `SAMLInfo` fields set by
`parseAssertionStruct`.  Go nests `*SAMLInfo` recursively with depth at most
2 (a response's embedded assertion, which itself never carries a nested
child); the model flattens that bounded recursion into this dedicated type
for the nested child.  `Typ` stands for the Go field `Type`. -/
structure SAMLCore where
  Typ : Str
  ID : Str
  IssueInstant : Option Time
  Issuer : Str
  Subject : Option Subject
  Conditions : Option Conditions
  AuthnStatement : Option AuthnStatement
  Attributes : List Attribute
  Signature : Option SignatureInfo
deriving DecidableEq

/-- `SAMLInfo` (`Typ` stands for the Go field `Type`). -/
structure SAMLInfo where
  Typ : Str
  ID : Str
  IssueInstant : Option Time
  Destination : Str
  InResponseTo : Str
  Status : Option Status
  Issuer : Str
  Subject : Option Subject
  Conditions : Option Conditions
  AuthnStatement : Option AuthnStatement
  Attributes : List Attribute
  Signature : Option SignatureInfo
  Assertion : Option SAMLCore
  AssertionConsumerServiceURL : Str
  ProtocolBinding : Str
  ForceAuthn : Option Bool
  IsPassive : Option Bool
  NameIDPolicy : Option NameIDPolicy
  RequestedAttributes : List RequestedAttribute
deriving DecidableEq

/-- The zero `SAMLInfo` (Go zero values / absent pointers). -/
def SAMLInfo.empty : SAMLInfo :=
  { Typ := [], ID := [], IssueInstant := none, Destination := [], InResponseTo := []
  , Status := none, Issuer := [], Subject := none, Conditions := none
  , AuthnStatement := none, Attributes := [], Signature := none, Assertion := none
  , AssertionConsumerServiceURL := [], ProtocolBinding := [], ForceAuthn := none
  , IsPassive := none, NameIDPolicy := none, RequestedAttributes := [] }

/-! ## The structural parser (`parser.go`) -/

/-- The parser's one hard failure mode. -/
inductive ParseError
  | malformedXML
deriving DecidableEq

/-- The `IssueInstant`-style pattern: set only when the attribute is nonempty
and the strict instant grammar accepts it. -/
def parseTimeField (s : Str) : Option Time :=
  if s ≠ [] then rfc3339Parse s else none

/-- Tri-state boolean attributes: absent when empty, otherwise
case-insensitive comparison with `"true"`. -/
def parseTriState (s : Str) : Option Bool :=
  if s ≠ [] then some (decide (toLowerStr s = str "true")) else none

/-- `Parser.extractStatusCode`: final colon-delimited segment. -/
def extractStatusCode (fullCode : Str) : Str :=
  match (fullCode.splitOn ':').getLast? with
  | some last => last
  | none => fullCode

/-- `Parser.parseSignature`: `Signed=true` whenever the subtree exists;
certificate parsing is whitespace-stripped, base64-decoded, X.509-parsed,
with every failure swallowed. -/
def parseSignature (sig : XmldsigSignatureRec) : SignatureInfo :=
  let certData := sig.x509Certificate.filter fun c => decide (c ≠ '\n' ∧ c ≠ '\r' ∧ c ≠ ' ')
  { Signed := true
  , SignatureMethod := sig.signatureMethodAlg
  , DigestMethod := sig.digestMethodAlg
  , CertInfo :=
      if sig.x509Certificate ≠ [] then
        match b64DecodePad b64Idx certData with
        | some certBytes => x509ParseCertificate certBytes
        | none => none
      else none }

/-- The `Status` population step shared by `parseResponse` and
`parseResponsePartial`. -/
def parseStatusField (st : SamlStatusRec) : Option Status :=
  if st.statusCodeValue ≠ [] then
    some { StatusCode := extractStatusCode st.statusCodeValue
         , StatusMessage := st.statusMessage }
  else none

/-- `Parser.parseAssertionStruct` (it never returns an error). -/
def parseAssertionStruct (a : SamlAssertionRec) : SAMLCore :=
  { Typ := str "Assertion"
  , ID := a.id
  , IssueInstant := parseTimeField a.issueInstant
  , Issuer := a.issuer
  , Subject := a.subject.map fun s => ⟨s.nameIDValue, s.nameIDFormat, s.spNameQualifier⟩
  , Conditions := a.conditions.map fun c =>
      { NotBefore := parseTimeField c.notBefore
      , NotOnOrAfter := parseTimeField c.notOnOrAfter
      , AudienceRestriction := c.audiences }
  , AuthnStatement := a.authnStatement.map fun st =>
      { AuthnInstant := parseTimeField st.authnInstant
      , SessionIndex := st.sessionIndex
      , SessionNotOnOrAfter := parseTimeField st.sessionNotOnOrAfter
      , AuthnContextClassRef := st.authnContextClassRef }
  , Attributes :=
      match a.attributes with
      | some attrs => attrs.map fun ar => ⟨ar.name, ar.friendlyName, ar.nameFormat, ar.values⟩
      | none => []
  , Signature := a.signature.map parseSignature }

/-- `Parser.parseResponse`. -/
def parseResponse (xmlData : Str) : Except ParseError SAMLInfo :=
  match xmlParse xmlData with
  | none => .error .malformedXML
  | some x =>
    match unmarshalResponse x with
    | none => .error .malformedXML
    | some resp =>
      .ok { SAMLInfo.empty with
            Typ := str "Response"
          , ID := resp.id
          , Destination := resp.destination
          , InResponseTo := resp.inResponseTo
          , Issuer := resp.issuer
          , IssueInstant := parseTimeField resp.issueInstant
          , Status := parseStatusField resp.status
          , Signature := resp.signature.map parseSignature
          , Assertion := resp.assertion.map parseAssertionStruct }

/-- `Parser.parseResponsePartial`: response-level fields only; the nested
assertion subtree is never consulted and the type tag is the distinct
marker. -/
def parseResponsePartial (xmlData : Str) : Except ParseError SAMLInfo :=
  match xmlParse xmlData with
  | none => .error .malformedXML
  | some x =>
    match unmarshalResponse x with
    | none => .error .malformedXML
    | some resp =>
      .ok { SAMLInfo.empty with
            Typ := str "Response (Encrypted)"
          , ID := resp.id
          , Destination := resp.destination
          , InResponseTo := resp.inResponseTo
          , Issuer := resp.issuer
          , IssueInstant := parseTimeField resp.issueInstant
          , Status := parseStatusField resp.status
          , Signature := resp.signature.map parseSignature }

/-- `Parser.parseAssertion` (the Go function returns the
`parseAssertionStruct` record; the model lifts it into the flattened
`SAMLInfo`). -/
def parseAssertion (xmlData : Str) : Except ParseError SAMLInfo :=
  match xmlParse xmlData with
  | none => .error .malformedXML
  | some x =>
    match unmarshalAssertionRoot x with
    | none => .error .malformedXML
    | some a =>
      let core := parseAssertionStruct a
      .ok { SAMLInfo.empty with
            Typ := core.Typ, ID := core.ID, IssueInstant := core.IssueInstant
          , Issuer := core.Issuer, Subject := core.Subject, Conditions := core.Conditions
          , AuthnStatement := core.AuthnStatement, Attributes := core.Attributes
          , Signature := core.Signature }

/-- `Parser.parseAuthnRequest`. -/
def parseAuthnRequest (xmlData : Str) : Except ParseError SAMLInfo :=
  match xmlParse xmlData with
  | none => .error .malformedXML
  | some x =>
    match unmarshalAuthnRequest x with
    | none => .error .malformedXML
    | some req =>
      .ok { SAMLInfo.empty with
            Typ := str "AuthnRequest"
          , ID := req.id
          , Destination := req.destination
          , Issuer := req.issuer
          , AssertionConsumerServiceURL := req.acsURL
          , ProtocolBinding := req.protocolBinding
          , IssueInstant := parseTimeField req.issueInstant
          , ForceAuthn := parseTriState req.forceAuthn
          , IsPassive := parseTriState req.isPassive
          , NameIDPolicy := req.nameIDPolicy.map fun p =>
              { Format := p.format
              , AllowCreate := parseTriState p.allowCreate
              , SPNameQualifier := p.spNameQualifier }
          , Signature := req.signature.map parseSignature
          , RequestedAttributes :=
              match req.extensions with
              | some ras => ras.map fun ra =>
                  { Name := ra.name, FriendlyName := ra.friendlyName
                  , NameFormat := ra.nameFormat, IsRequired := parseTriState ra.isRequired }
              | none => [] }

/-- `Parser.Parse`: sniff the opening tag to route, otherwise trial-parse as
Response, AuthnRequest, Assertion. -/
def Parse (xmlData : Str) : Except ParseError SAMLInfo :=
  let trimmed := trimSpace xmlData
  if containsSub trimmed (str "<samlp:Response") ∨ containsSub trimmed (str "<Response") then
    parseResponse xmlData
  else if containsSub trimmed (str "<samlp:AuthnRequest") ∨
      containsSub trimmed (str "<AuthnRequest") then
    parseAuthnRequest xmlData
  else if containsSub trimmed (str "<saml:Assertion") ∨
      containsSub trimmed (str "<Assertion") then
    parseAssertion xmlData
  else
    match parseResponse xmlData with
    | .ok info => .ok info
    | .error _ =>
      match parseAuthnRequest xmlData with
      | .ok info => .ok info
      | .error _ => parseAssertion xmlData

/-- `Parser.ParsePartial`: route Response-marked bytes to the partial
response parser, everything else to `Parse`. -/
def ParsePartial (xmlData : Str) : Except ParseError SAMLInfo :=
  let trimmed := trimSpace xmlData
  if containsSub trimmed (str "<samlp:Response") ∨ containsSub trimmed (str "<Response") then
    parseResponsePartial xmlData
  else Parse xmlData

/-! ## General lemmas -/

theorem dropWhile_eq_self_of_mem {α} (p : α → Bool) (l : List α)
    (h : ∀ c ∈ l, p c = false) : l.dropWhile p = l := by
  cases l with
  | nil => rfl
  | cons a t => rw [List.dropWhile_cons, h a (List.mem_cons_self a t)]; simp

theorem head_dropWhile_not {α} (p : α → Bool) (l : List α) (c : α)
    (h : (l.dropWhile p).head? = some c) : p c = false := by
  induction l with
  | nil => simp [List.dropWhile] at h
  | cons a t ih =>
    rw [List.dropWhile_cons] at h
    by_cases hp : p a
    · simp [hp] at h; exact ih h
    · simp [hp] at h; simpa [← h] using hp

theorem trimSpace_of_no_space (l : Str) (h : ∀ c ∈ l, isSpaceChar c = false) :
    trimSpace l = l := by
  unfold trimSpace
  rw [dropWhile_eq_self_of_mem _ _ h,
    dropWhile_eq_self_of_mem _ _ (fun c hc => h c (List.mem_reverse.mp hc)),
    List.reverse_reverse]

theorem getLast?_of_suffix {α} {l₂ l₁ : List α} (h : l₂ <:+ l₁) (hne : l₂ ≠ []) :
    l₂.getLast? = l₁.getLast? := by
  obtain ⟨pre, rfl⟩ := h
  rw [List.getLast?_append_of_ne_nil pre hne]

theorem trimSpace_head_not (s : Str) (c : Char) (h : (trimSpace s).head? = some c) :
    isSpaceChar c = false := by
  unfold trimSpace at h
  rw [List.head?_reverse] at h
  set D := ((s.dropWhile isSpaceChar).reverse).dropWhile isSpaceChar with hD
  have hsuf : D <:+ (s.dropWhile isSpaceChar).reverse := List.dropWhile_suffix _
  have hne : D ≠ [] := by
    intro he; rw [he] at h; simp at h
  rw [getLast?_of_suffix hsuf hne, List.getLast?_reverse] at h
  exact head_dropWhile_not _ _ _ h

theorem trimSpace_getLast_not (s : Str) (c : Char) (h : (trimSpace s).getLast? = some c) :
    isSpaceChar c = false := by
  unfold trimSpace at h
  rw [List.getLast?_reverse] at h
  exact head_dropWhile_not _ _ _ h

theorem trimSpace_eq_self (s : Str)
    (h1 : ∀ c, s.head? = some c → isSpaceChar c = false)
    (h2 : ∀ c, s.getLast? = some c → isSpaceChar c = false) : trimSpace s = s := by
  have hA : s.dropWhile isSpaceChar = s := by
    cases s with
    | nil => rfl
    | cons a t => rw [List.dropWhile_cons, h1 a rfl]; simp
  unfold trimSpace
  rw [hA]
  have hB : s.reverse.dropWhile isSpaceChar = s.reverse := by
    cases hs : s.reverse with
    | nil => simp
    | cons a t =>
      rw [List.dropWhile_cons, h2 a (by rw [← List.head?_reverse, hs]; rfl)]
      simp
  rw [hB, List.reverse_reverse]

theorem trimSpace_idem (s : Str) : trimSpace (trimSpace s) = trimSpace s :=
  trimSpace_eq_self _ (trimSpace_head_not s) (trimSpace_getLast_not s)

theorem range'_app (s m n : Nat) :
    List.range' s m ++ List.range' (s + m) n = List.range' s (m + n) := by
  induction m generalizing s with
  | zero => simp
  | succ k ih =>
    rw [List.range'_succ, show k + 1 + n = (k + n) + 1 by omega, List.range'_succ,
      List.cons_append]
    congr 1
    rw [show s + (k + 1) = s + 1 + k by omega]
    exact ih (s + 1)

theorem isPrefixOfB_take {α} [DecidableEq α] (l s : List α) (h : isPrefixOfB l s = true) :
    s.take l.length = l := by
  induction l generalizing s with
  | nil => rfl
  | cons a as ih =>
    cases s with
    | nil => simp [isPrefixOfB] at h
    | cons b bs =>
      simp only [isPrefixOfB, Bool.and_eq_true, decide_eq_true_eq] at h
      simp [h.1, ih bs h.2]

/-! ## Base64 lemmas -/

theorem b64Idx_chr_all : ∀ n < 64, b64Idx (b64Chr n) = some n := by decide

theorem b64Chr_ne_pad_all : ∀ n < 64, b64Chr n ≠ '=' := by decide

theorem b64Chr_not_ws_all :
    ∀ n < 64, (decide (b64Chr n ≠ '\n' ∧ b64Chr n ≠ '\r' ∧ b64Chr n ≠ ' ')) = true ∧
      isSpaceChar (b64Chr n) = false := by decide

theorem b64DecodePad_encode (B : Bytes) (hB : ∀ b ∈ B, b < 256) :
    b64DecodePad b64Idx (b64EncodeCore B) = some B := by
  induction B using b64EncodeCore.induct with
  | case1 => rfl
  | case2 b0 =>
    have h0 : b0 < 256 := hB b0 (by simp)
    rw [b64EncodeCore, b64DecodePad, b64Idx_chr_all _ (by omega), b64Idx_chr_all _ (by omega)]
    try dsimp only
    rw [if_pos rfl, if_pos ⟨rfl, rfl⟩]
    simp only [Option.some.injEq, List.cons.injEq, and_true]
    omega
  | case3 b0 b1 =>
    have h0 : b0 < 256 := hB b0 (by simp)
    have h1 : b1 < 256 := hB b1 (by simp)
    rw [b64EncodeCore, b64DecodePad, b64Idx_chr_all _ (by omega), b64Idx_chr_all _ (by omega)]
    try dsimp only
    rw [if_neg (b64Chr_ne_pad_all _ (by omega)), b64Idx_chr_all _ (by omega)]
    try dsimp only
    rw [if_pos rfl, if_pos rfl]
    simp only [Option.some.injEq, List.cons.injEq, and_true]
    omega
  | case4 b0 b1 b2 rest ih =>
    have h0 : b0 < 256 := hB b0 (by simp)
    have h1 : b1 < 256 := hB b1 (by simp)
    have h2 : b2 < 256 := hB b2 (by simp)
    have hrest : ∀ b ∈ rest, b < 256 := fun b hb => hB b (by simp [hb])
    rw [b64EncodeCore, b64DecodePad, b64Idx_chr_all _ (by omega), b64Idx_chr_all _ (by omega)]
    try dsimp only
    rw [if_neg (b64Chr_ne_pad_all _ (by omega)), b64Idx_chr_all _ (by omega)]
    try dsimp only
    rw [if_neg (b64Chr_ne_pad_all _ (by omega)), b64Idx_chr_all _ (by omega)]
    try dsimp only
    rw [ih hrest]
    simp only [Option.map_some', Option.some.injEq, List.cons.injEq, and_true]
    omega

theorem b64EncodeCore_mem (B : Bytes) (hB : ∀ b ∈ B, b < 256) :
    ∀ c ∈ b64EncodeCore B, (∃ n, n < 64 ∧ c = b64Chr n) ∨ c = '=' := by
  induction B using b64EncodeCore.induct with
  | case1 => intro c hc; simp [b64EncodeCore] at hc
  | case2 b0 =>
    have h0 : b0 < 256 := hB b0 (by simp)
    intro c hc
    simp only [b64EncodeCore, List.mem_cons, List.not_mem_nil, or_false] at hc
    rcases hc with rfl | rfl | rfl | rfl
    · exact .inl ⟨b0 / 4, by omega, rfl⟩
    · exact .inl ⟨b0 % 4 * 16, by omega, rfl⟩
    · exact .inr rfl
    · exact .inr rfl
  | case3 b0 b1 =>
    have h0 : b0 < 256 := hB b0 (by simp)
    have h1 : b1 < 256 := hB b1 (by simp)
    intro c hc
    simp only [b64EncodeCore, List.mem_cons, List.not_mem_nil, or_false] at hc
    rcases hc with rfl | rfl | rfl | rfl
    · exact .inl ⟨b0 / 4, by omega, rfl⟩
    · exact .inl ⟨b0 % 4 * 16 + b1 / 16, by omega, rfl⟩
    · exact .inl ⟨b1 % 16 * 4, by omega, rfl⟩
    · exact .inr rfl
  | case4 b0 b1 b2 rest ih =>
    have h0 : b0 < 256 := hB b0 (by simp)
    have h1 : b1 < 256 := hB b1 (by simp)
    have h2 : b2 < 256 := hB b2 (by simp)
    have hrest : ∀ b ∈ rest, b < 256 := fun b hb => hB b (by simp [hb])
    intro c hc
    simp only [b64EncodeCore, List.mem_cons] at hc
    rcases hc with rfl | rfl | rfl | rfl | hc
    · exact .inl ⟨b0 / 4, by omega, rfl⟩
    · exact .inl ⟨b0 % 4 * 16 + b1 / 16, by omega, rfl⟩
    · exact .inl ⟨b1 % 16 * 4 + b2 / 64, by omega, rfl⟩
    · exact .inl ⟨b2 % 64, by omega, rfl⟩
    · exact ih hrest c hc

theorem cleanB64Input_encode (B : Bytes) (hB : ∀ b ∈ B, b < 256) :
    cleanB64Input (b64EncodeCore B) = b64EncodeCore B := by
  have hmem := b64EncodeCore_mem B hB
  unfold cleanB64Input
  rw [List.filter_eq_self.mpr ?hall]
  case hall =>
    intro c hc
    rcases hmem c hc with ⟨n, hn, rfl⟩ | rfl
    · exact (b64Chr_not_ws_all n hn).1
    · decide
  apply trimSpace_of_no_space
  intro c hc
  rcases hmem c hc with ⟨n, hn, rfl⟩ | rfl
  · exact (b64Chr_not_ws_all n hn).2
  · decide

theorem Decode_Encode (B : Bytes) (hB : ∀ b ∈ B, b < 256) :
    Decode (Encode B) = .ok B := by
  simp only [Decode, Encode, cleanB64Input_encode B hB, b64DecodePad_encode B hB]

/-! ## DEFLATE lemmas -/

theorem deflateRaw_bytes (B : Bytes) (hB : ∀ b ∈ B, b < 256) :
    ∀ b ∈ deflateRaw B, b < 256 := by
  induction B using deflateRaw.induct with
  | case1 B hle =>
    intro b hb
    have hh : storedHeader true B.length =
        [1, B.length % 256, B.length / 256, 255 - B.length % 256, 255 - B.length / 256] := rfl
    rw [deflateRaw, if_pos hle, hh] at hb
    simp only [List.cons_append, List.nil_append, List.mem_cons] at hb
    rcases hb with rfl | rfl | rfl | rfl | rfl | hb
    · omega
    · omega
    · omega
    · omega
    · omega
    · exact hB b hb
  | case2 B hgt ih =>
    intro b hb
    have hh : storedHeader false 65535 = [0, 255, 255, 0, 0] := rfl
    rw [deflateRaw, if_neg hgt, hh] at hb
    simp only [List.cons_append, List.nil_append, List.mem_cons, List.mem_append] at hb
    rcases hb with rfl | rfl | rfl | rfl | rfl | hb | hb
    · omega
    · omega
    · omega
    · omega
    · omega
    · exact hB b (List.take_subset _ _ hb)
    · exact ih (fun c hc => hB c (List.drop_subset _ _ hc)) b hb

theorem inflate_deflate (B : Bytes) : inflateLoop (deflateRaw B) = some B := by
  induction B using deflateRaw.induct with
  | case1 B hle =>
    have hh : storedHeader true B.length =
        [1, B.length % 256, B.length / 256, 255 - B.length % 256, 255 - B.length / 256] := rfl
    rw [deflateRaw, if_pos hle, hh]
    simp only [List.cons_append, List.nil_append]
    rw [inflateLoop]
    rw [if_pos ⟨Or.inr rfl, rfl, rfl, by omega⟩, if_pos rfl]
    rw [show B.length % 256 + 256 * (B.length / 256) = B.length by omega, List.take_length]
  | case2 B hgt ih =>
    rw [deflateRaw, if_neg hgt]
    have h5 : storedHeader false 65535 = [0, 255, 255, 0, 0] := by rfl
    rw [h5]
    simp only [List.cons_append, List.nil_append]
    rw [inflateLoop]
    have hlen : (B.take 65535).length = 65535 := by
      rw [List.length_take]; omega
    have hrest : 255 + 256 * 255 ≤ (B.take 65535 ++ deflateRaw (B.drop 65535)).length := by
      rw [List.length_append, hlen]; omega
    rw [if_pos ⟨Or.inl rfl, rfl, rfl, hrest⟩, if_neg (by omega)]
    have hdrop : (B.take 65535 ++ deflateRaw (B.drop 65535)).drop (255 + 256 * 255) =
        deflateRaw (B.drop 65535) := by
      rw [show 255 + 256 * 255 = (B.take 65535).length by omega]
      exact List.drop_left _ _
    have htake : (B.take 65535 ++ deflateRaw (B.drop 65535)).take (255 + 256 * 255) =
        B.take 65535 := by
      rw [show 255 + 256 * 255 = (B.take 65535).length by omega]
      exact List.take_left _ _
    rw [hdrop, ih, htake]
    simp [List.take_append_drop]

theorem DecodeDeflate_EncodeDeflate (B : Bytes) (hB : ∀ b ∈ B, b < 256) :
    DecodeDeflate (EncodeDeflate B) = .ok B := by
  unfold DecodeDeflate EncodeDeflate Deflate
  rw [Decode_Encode _ (deflateRaw_bytes B hB)]
  dsimp only
  rw [inflate, inflate_deflate]

/-! ## Claim C4 -/

/-- C4: for every byte sequence `B`, `Decode (Encode B)` succeeds and returns
exactly `B`, and `DecodeDeflate (EncodeDeflate B)` succeeds and returns
exactly `B` (DEFLATE modelled by the stored-block wire format). -/
theorem c4_roundtrip (B : Bytes) (hB : ∀ b ∈ B, b < 256) :
    Decode (Encode B) = .ok B ∧ DecodeDeflate (EncodeDeflate B) = .ok B :=
  ⟨Decode_Encode B hB, DecodeDeflate_EncodeDeflate B hB⟩

/-- C4 witness: the round trip evaluated on a concrete byte sequence. -/
theorem c4_roundtrip_witness :
    Decode (Encode (bstr "<saml>test</saml>")) = .ok (bstr "<saml>test</saml>") ∧
    DecodeDeflate (EncodeDeflate (bstr "<saml>test</saml>")) = .ok (bstr "<saml>test</saml>") :=
  c4_roundtrip (bstr "<saml>test</saml>") (by decide)

/-! ## Claim C6 -/

/-- C6 counterexample: `Decode` applied to the empty string succeeds with
empty output (the standard base64 decoding accepts the empty string), rather
than returning a `MalformedEncoding`-class error as claimed. -/
theorem c6_counterexample :
    Decode (str "") = Except.ok ([] : Bytes) ∧
    Except.ok ([] : Bytes) ≠
      (Except.error DecodeError.malformedEncoding : Except DecodeError Bytes) :=
  ⟨rfl, fun h => nomatch h⟩

/-- C6 amended: non-base64 input yields a `MalformedEncoding` error and empty
or non-XML input to `Parse` yields a `MalformedXML` error, but the empty
string is accepted by `Decode` (it is valid base64 for the empty byte
sequence). -/
theorem c6_amended_boundary_errors :
    Decode (str "") = .ok [] ∧
    Decode (str "not-valid-base64!!!") = .error .malformedEncoding ∧
    Decode (str "hello world!@#$") = .error .malformedEncoding ∧
    Parse (str "") = .error .malformedXML ∧
    Parse (str "this is not XML") = .error .malformedXML ∧
    Parse (str "<saml><broken>") = .error .malformedXML :=
  ⟨rfl, rfl, rfl, rfl, rfl, rfl⟩

/-! ## Claim C3 -/

/-- C3's claimed behaviour, formalised from the claim's own words: input
whose trimmed form starts with `<` is returned as-is, and *every other*
input must go through `Decode` (with the UTF-8/XML checks and the DEFLATE
fallback on the decoded bytes). -/
def smartDecodeClaimed (input : Str) : Except DecodeError Bytes :=
  let t := trimSpace input
  if isPrefixOfB (str "<") t then .ok (bytesOf t)
  else
    match Decode t with
    | .error e => .error e
    | .ok decoded =>
      if utf8Valid decoded ∧ decoded.head? = some 60 then .ok decoded
      else
        match inflate decoded with
        | some inflated =>
          if utf8Valid inflated ∧ inflated.head? = some 60 then .ok inflated
          else .ok decoded
        | none => .ok decoded

/-- The gate `SmartDecode` actually applies, spelled as the amendment words
it: the trimmed input is returned unchanged when it is empty, starts with
`<`, or contains any character outside the base64 alphabet (CR/LF/space
tolerated). -/
def smartDecodeAmendedGate (t : Str) : Bool :=
  decide (t = []) || isPrefixOfB (str "<") t ||
    t.any fun c => !(isBase64Char c || c = '\n' || c = '\r' || c = ' ')

/-- The amended description of `SmartDecode` (C3 corrected): the pass-through
gate is the full base64 lexical filter, not just the leading-`<` test. -/
def smartDecodeAmended (input : Str) : Except DecodeError Bytes :=
  let t := trimSpace input
  if smartDecodeAmendedGate t then .ok (bytesOf t)
  else
    match Decode t with
    | .error e => .error e
    | .ok decoded =>
      if utf8Valid decoded ∧ decoded.head? = some 60 then .ok decoded
      else
        match inflate decoded with
        | some inflated =>
          if utf8Valid inflated ∧ inflated.head? = some 60 then .ok inflated
          else .ok decoded
        | none => .ok decoded

theorem all_eq_not_any_not' {α} (l : List α) (p : α → Bool) :
    l.all p = !(l.any fun c => !(p c)) := by
  induction l with
  | nil => rfl
  | cons a t ih => simp [List.all_cons, List.any_cons, ih]

theorem IsBase64Encoded_eq_gate (t : Str) (ht : trimSpace t = t) :
    IsBase64Encoded t = !(smartDecodeAmendedGate t) := by
  unfold IsBase64Encoded smartDecodeAmendedGate
  rw [ht]
  by_cases h0 : t = []
  · subst h0; rfl
  · rw [if_neg h0]
    by_cases h1 : isPrefixOfB (str "<") t = true
    · simp [h0, h1]
    · simp only [Bool.not_eq_true] at h1
      simp [h0, h1, all_eq_not_any_not']

/-- C3 counterexample: on the non-base64, non-XML input `"!!"`, the claimed
pipeline runs `Decode` and fails, but `SmartDecode` returns the input bytes
unchanged without error. -/
theorem c3_counterexample :
    smartDecodeClaimed (str "!!") = .error .malformedEncoding ∧
    SmartDecode (str "!!") = .ok (bstr "!!") :=
  ⟨rfl, rfl⟩

/-- C3 amended: `SmartDecode` behaves exactly as claimed except that the
pass-through gate is `IsBase64Encoded`: the trimmed input is returned as-is
not only when it starts with `<` but also when it is empty or contains any
character outside the base64 alphabet; otherwise `Decode`, the UTF-8/`<`
checks and the DEFLATE fallback proceed as claimed. -/
theorem c3_smartdecode_amended (input : Str) :
    SmartDecode input = smartDecodeAmended input := by
  have hg := IsBase64Encoded_eq_gate (trimSpace input) (trimSpace_idem input)
  by_cases h : smartDecodeAmendedGate (trimSpace input) = true <;>
    simp [SmartDecode, smartDecodeAmended, hg, h]

/-! ## Claim C10 -/

/-- C10: the acceptance gate `isSAMLXML` accepts the unprefixed self-closing
`<Response/>` (its indicator `"<Response"` needs no trailing space) while the
classifier `detectSAMLType` requires `"<Response "` and yields `"Unknown"`;
consequently a bulk-extraction candidate decoding to exactly that document is
accepted with type `"Unknown"`. -/
theorem c10_gate_accepts_classifier_unknown :
    isSAMLXML (bstr "<Response/>") = true ∧
    detectSAMLType (bstr "<Response/>") = str "Unknown" ∧
    tryExtractSAML (str "PFJlc3BvbnNlLz4=") (str "SAMLResponse")
        (str "https://sp.example.com/acs") (str "response-body") 1 =
      (some { Index := 1, Typ := str "Unknown", Source := str "response-body"
            , URL := str "https://sp.example.com/acs", ParameterName := str "SAMLResponse"
            , RawValue := str "PFJlc3BvbnNlLz4=", DecodedXML := bstr "<Response/>"
            , WasDeflated := false }, 2) :=
  ⟨rfl, rfl, rfl⟩

/-! ## Claim C5 -/

/-- The classifier as the spec words it: the first type in the fixed priority
list any of whose indicator substrings occurs in the content, `Unknown` when
none occurs. -/
def detectSAMLTypeSpec (data : Bytes) : Str :=
  ((samlTypeChecks.find? fun tc =>
      tc.2.any fun ind => containsSub data (bytesOf ind)).map (·.1)).getD (str "Unknown")

theorem detectLoop_eq_find (data : Bytes) (l : List (Str × List Str)) :
    detectLoop data l =
      ((l.find? fun tc => tc.2.any fun ind => containsSub data (bytesOf ind)).map
        (·.1)).getD (str "Unknown") := by
  induction l with
  | nil => rfl
  | cons tc rest ih =>
    obtain ⟨tn, inds⟩ := tc
    rw [detectLoop, List.find?]
    by_cases h : (inds.any fun ind => containsSub data (bytesOf ind)) = true
    · simp [h]
    · simp only [Bool.not_eq_true] at h
      simp [h, ih]

/-- C5: `detectSAMLType` evaluates the fixed priority list in the order
Response, AuthnRequest, LogoutRequest, LogoutResponse, Assertion, returning
the first type any of whose indicators occurs and `"Unknown"` otherwise; in
particular any content containing a Response indicator — for instance a
document that also contains an Assertion indicator — classifies as
`"Response"`, and content matching no indicator classifies as `"Unknown"`. -/
theorem c5_detect_priority (data : Bytes) :
    detectSAMLType data = detectSAMLTypeSpec data ∧
    (([str "samlp:Response", str "saml2p:Response", str "<Response "].any fun ind =>
        containsSub data (bytesOf ind)) = true →
      detectSAMLType data = str "Response") ∧
    ((samlTypeChecks.all fun tc => tc.2.all fun ind => !containsSub data (bytesOf ind)) = true →
      detectSAMLType data = str "Unknown") := by
  refine ⟨detectLoop_eq_find data samlTypeChecks, fun h => ?_, fun h => ?_⟩
  · rw [detectSAMLType, samlTypeChecks, detectLoop, if_pos h]
  · simp only [samlTypeChecks, List.all_cons, List.all_nil, Bool.and_eq_true,
      and_true] at h
    obtain ⟨h1, h2, h3, h4, h5⟩ := h
    rw [detectSAMLType, samlTypeChecks]
    rw [detectLoop, if_neg (by simp_all), detectLoop, if_neg (by simp_all),
      detectLoop, if_neg (by simp_all), detectLoop, if_neg (by simp_all),
      detectLoop, if_neg (by simp_all), detectLoop]

/-- C5 witness: a document carrying both a Response wrapper indicator and an
Assertion indicator classifies as Response. -/
theorem c5_detect_priority_witness :
    detectSAMLType (bstr "<Response ID=\"r\"><Assertion ID=\"a\"/></Response>") =
      str "Response" :=
  (c5_detect_priority (bstr "<Response ID=\"r\"><Assertion ID=\"a\"/></Response>")).2.1
    (by decide)

/-! ## Claim C7: lemmas about the regex scan -/

theorem isPrefixOfB_length {α} [DecidableEq α] (l s : List α) (h : isPrefixOfB l s = true) :
    l.length ≤ s.length := by
  have := congrArg List.length (isPrefixOfB_take l s h)
  rw [List.length_take] at this
  omega

theorem matchOne_caps_nil (r : RE) (hng : ∀ i sub, r ≠ .grp i sub) (s : Str)
    (rc : Str × Caps) (h : rc ∈ matchOne r s) : rc.2 = [] := by
  cases r with
  | grp i sub => exact absurd rfl (hng i sub)
  | lit l =>
    simp only [matchOne] at h
    split at h
    · simp only [List.mem_singleton] at h; subst h; rfl
    · simp at h
  | alts ls =>
    simp only [matchOne, List.mem_filterMap] at h
    obtain ⟨l, _, hsome⟩ := h
    split at hsome
    · injection hsome with h'; subst h'; rfl
    · cases hsome
  | one cc =>
    cases s with
    | nil => simp [matchOne] at h
    | cons c t =>
      simp only [matchOne] at h
      split at h
      · simp only [List.mem_singleton] at h; subst h; rfl
      · simp at h
  | star cc =>
    simp only [matchOne, List.mem_map] at h
    obtain ⟨k, _, rfl⟩ := h
    rfl
  | plus cc =>
    simp only [matchOne, List.mem_map] at h
    obtain ⟨k, _, rfl⟩ := h
    rfl
  | opt cc =>
    cases s with
    | nil => simp only [matchOne, List.mem_singleton] at h; subst h; rfl
    | cons c t =>
      simp only [matchOne] at h
      split at h
      · simp only [List.mem_cons, List.not_mem_nil, or_false] at h
        rcases h with rfl | rfl <;> rfl
      · simp only [List.mem_singleton] at h; subst h; rfl

theorem matchOne_grp_alts_caps (i : Nat) (ls : List Str) (s : Str) (rc : Str × Caps)
    (h : rc ∈ matchOne (.grp i (.alts ls)) s) : ∃ l ∈ ls, rc.2 = [(i, l)] := by
  simp only [matchOne, List.mem_map] at h
  obtain ⟨rc', hrc', rfl⟩ := h
  simp only [List.mem_filterMap] at hrc'
  obtain ⟨l, hl, hsome⟩ := hrc'
  split at hsome
  case isTrue hp =>
    injection hsome with h'
    subst h'
    refine ⟨l, hl, ?_⟩
    have hlen : l.length ≤ s.length := isPrefixOfB_length l s hp
    simp only [List.nil_append]
    rw [List.length_drop, show s.length - (s.length - l.length) = l.length by omega,
      isPrefixOfB_take l s hp]
  case isFalse => cases hsome

theorem matchOne_grp_caps (i : Nat) (sub : RE) (s : Str) (rc : Str × Caps)
    (h : rc ∈ matchOne (.grp i sub) s) :
    ∃ rc' ∈ matchOne sub s, rc.2 = rc'.2 ++ [(i, s.take (s.length - rc'.1.length))] := by
  simp only [matchOne, List.mem_map] at h
  obtain ⟨rc', hrc', rfl⟩ := h
  exact ⟨rc', hrc', rfl⟩

theorem matchSeq_capsOK (P : Nat → Str → Prop) (pat : List RE)
    (hp : ∀ r ∈ pat, ∀ s rc, rc ∈ matchOne r s → ∀ q ∈ rc.2, P q.1 q.2) :
    ∀ s rc, rc ∈ matchSeq pat s → ∀ q ∈ rc.2, P q.1 q.2 := by
  induction pat with
  | nil =>
    intro s rc h q hq
    simp only [matchSeq, List.mem_singleton] at h
    subst h
    simp at hq
  | cons r rs ih =>
    intro s rc h q hq
    simp only [matchSeq, List.mem_flatMap, List.mem_map] at h
    obtain ⟨sc, hsc, sc', hsc', rfl⟩ := h
    simp only [List.mem_append] at hq
    rcases hq with hq | hq
    · exact hp r (List.mem_cons_self r rs) s sc hsc q hq
    · exact ih (fun r' hr' => hp r' (List.mem_cons_of_mem r hr')) sc.1 sc' hsc' q hq

theorem findFrom_capsOK (P : Nat → Str → Prop) (pat : List RE)
    (hp : ∀ s rc, rc ∈ matchSeq pat s → ∀ q ∈ rc.2, P q.1 q.2) :
    ∀ s caps rest, findFrom pat s = some (caps, rest) → ∀ q ∈ caps, P q.1 q.2 := by
  intro s
  induction s with
  | nil =>
    intro caps rest h
    rw [findFrom] at h
    split at h
    case h_1 rc tl heq =>
      injection h with h'
      have hrc : rc ∈ matchSeq pat [] := heq ▸ List.mem_cons_self rc tl
      have := hp [] rc hrc
      cases h'
      exact fun q hq => this q hq
    case h_2 => cases h
  | cons c t ih =>
    intro caps rest h
    rw [findFrom] at h
    split at h
    case h_1 rc tl heq =>
      injection h with h'
      have hrc : rc ∈ matchSeq pat (c :: t) := heq ▸ List.mem_cons_self rc tl
      have := hp (c :: t) rc hrc
      cases h'
      exact fun q hq => this q hq
    case h_2 => exact ih caps rest h

theorem findAllCaps_capsOK (P : Nat → Str → Prop) (pat : List RE)
    (hp : ∀ s rc, rc ∈ matchSeq pat s → ∀ q ∈ rc.2, P q.1 q.2) :
    ∀ fuel s caps, caps ∈ findAllCaps pat fuel s → ∀ q ∈ caps, P q.1 q.2 := by
  intro fuel
  induction fuel with
  | zero => intro s caps h; simp [findAllCaps] at h
  | succ f ih =>
    intro s caps h
    rw [findAllCaps] at h
    split at h
    case h_1 => simp at h
    case h_2 caps' rest heq =>
      simp only [List.mem_cons] at h
      rcases h with rfl | h
      · exact findFrom_capsOK P pat hp s caps rest heq
      · exact ih rest caps h

theorem htmlPattern1_hp :
    ∀ r ∈ htmlPattern1, ∀ s rc, rc ∈ matchOne r s →
      ∀ q ∈ rc.2, (q.1 = 1 → q.2 ∈ samlNameAlts) := by
  intro r hr s rc hm q hq
  simp only [htmlPattern1, List.mem_cons, List.not_mem_nil, or_false] at hr
  rcases hr with rfl | rfl | rfl | rfl | rfl | rfl | rfl | rfl | rfl | rfl | rfl
  · rw [matchOne_caps_nil _ (fun i sub h => RE.noConfusion h) s rc hm] at hq; simp at hq
  · rw [matchOne_caps_nil _ (fun i sub h => RE.noConfusion h) s rc hm] at hq; simp at hq
  · rw [matchOne_caps_nil _ (fun i sub h => RE.noConfusion h) s rc hm] at hq; simp at hq
  · rw [matchOne_caps_nil _ (fun i sub h => RE.noConfusion h) s rc hm] at hq; simp at hq
  · obtain ⟨l, hl, hcaps⟩ := matchOne_grp_alts_caps 1 samlNameAlts s rc hm
    rw [hcaps] at hq
    simp only [List.mem_singleton] at hq
    subst hq
    exact fun _ => hl
  · rw [matchOne_caps_nil _ (fun i sub h => RE.noConfusion h) s rc hm] at hq; simp at hq
  · rw [matchOne_caps_nil _ (fun i sub h => RE.noConfusion h) s rc hm] at hq; simp at hq
  · rw [matchOne_caps_nil _ (fun i sub h => RE.noConfusion h) s rc hm] at hq; simp at hq
  · rw [matchOne_caps_nil _ (fun i sub h => RE.noConfusion h) s rc hm] at hq; simp at hq
  · obtain ⟨rc', hrc', hcaps⟩ := matchOne_grp_caps 2 (.plus nqcls) s rc hm
    rw [matchOne_caps_nil _ (fun i sub h => RE.noConfusion h) s rc' hrc'] at hcaps
    rw [hcaps] at hq
    simp only [List.nil_append, List.mem_singleton] at hq
    subst hq
    intro h1
    simp at h1
  · rw [matchOne_caps_nil _ (fun i sub h => RE.noConfusion h) s rc hm] at hq; simp at hq

theorem htmlPattern2_hp :
    ∀ r ∈ htmlPattern2, ∀ s rc, rc ∈ matchOne r s →
      ∀ q ∈ rc.2, (q.1 = 2 → q.2 ∈ samlNameAlts) := by
  intro r hr s rc hm q hq
  simp only [htmlPattern2, List.mem_cons, List.not_mem_nil, or_false] at hr
  rcases hr with rfl | rfl | rfl | rfl | rfl | rfl | rfl | rfl | rfl | rfl | rfl
  · rw [matchOne_caps_nil _ (fun i sub h => RE.noConfusion h) s rc hm] at hq; simp at hq
  · rw [matchOne_caps_nil _ (fun i sub h => RE.noConfusion h) s rc hm] at hq; simp at hq
  · rw [matchOne_caps_nil _ (fun i sub h => RE.noConfusion h) s rc hm] at hq; simp at hq
  · rw [matchOne_caps_nil _ (fun i sub h => RE.noConfusion h) s rc hm] at hq; simp at hq
  · obtain ⟨rc', hrc', hcaps⟩ := matchOne_grp_caps 1 (.plus nqcls) s rc hm
    rw [matchOne_caps_nil _ (fun i sub h => RE.noConfusion h) s rc' hrc'] at hcaps
    rw [hcaps] at hq
    simp only [List.nil_append, List.mem_singleton] at hq
    subst hq
    intro h1
    simp at h1
  · rw [matchOne_caps_nil _ (fun i sub h => RE.noConfusion h) s rc hm] at hq; simp at hq
  · rw [matchOne_caps_nil _ (fun i sub h => RE.noConfusion h) s rc hm] at hq; simp at hq
  · rw [matchOne_caps_nil _ (fun i sub h => RE.noConfusion h) s rc hm] at hq; simp at hq
  · rw [matchOne_caps_nil _ (fun i sub h => RE.noConfusion h) s rc hm] at hq; simp at hq
  · obtain ⟨l, hl, hcaps⟩ := matchOne_grp_alts_caps 2 samlNameAlts s rc hm
    rw [hcaps] at hq
    simp only [List.mem_singleton] at hq
    subst hq
    exact fun _ => hl
  · rw [matchOne_caps_nil _ (fun i sub h => RE.noConfusion h) s rc hm] at hq; simp at hq

theorem lookupCap_mem (i : Nat) (caps : Caps) (v : Str) (h : lookupCap i caps = some v) :
    (i, v) ∈ caps := by
  unfold lookupCap at h
  cases hf : caps.find? (fun p => decide (p.1 = i)) with
  | none => rw [hf] at h; cases h
  | some p =>
    rw [hf] at h
    injection h with h'
    have hmem := List.mem_of_find?_eq_some hf
    have hpred := List.find?_some hf
    simp only [decide_eq_true_eq] at hpred
    have hp : p = (i, v) := by
      obtain ⟨p1, p2⟩ := p
      simp only at hpred h'
      rw [hpred, h']
    rwa [← hp]

theorem mapInsert_mem (k v : Str) (l : List (Str × Str)) (a b : Str)
    (h : (a, b) ∈ mapInsert k v l) : (a, b) = (k, v) ∨ (a, b) ∈ l := by
  induction l with
  | nil => simpa [mapInsert] using h
  | cons p t ih =>
    obtain ⟨k', v'⟩ := p
    rw [mapInsert] at h
    split at h
    · simp only [List.mem_cons] at h
      rcases h with h | h
      · exact .inl h
      · exact .inr (List.mem_cons_of_mem _ h)
    · simp only [List.mem_cons] at h
      rcases h with h | h
      · exact .inr (by simp [h])
      · rcases ih h with h' | h'
        · exact .inl h'
        · exact .inr (List.mem_cons_of_mem _ h')

theorem processHTMLMatch_sound (acc : List (Str × Str)) (caps : Caps)
    (hacc : ∀ p ∈ acc, p.1 ∈ samlNameAlts ∨ p.2 ∈ samlNameAlts)
    (hcaps : (∀ q ∈ caps, q.1 = 1 → q.2 ∈ samlNameAlts) ∨
             (∀ q ∈ caps, q.1 = 2 → q.2 ∈ samlNameAlts)) :
    ∀ p ∈ processHTMLMatch acc caps, p.1 ∈ samlNameAlts ∨ p.2 ∈ samlNameAlts := by
  intro p hp
  unfold processHTMLMatch at hp
  split at hp
  case h_1 m1 m2 h1 h2 =>
    have hm1 := lookupCap_mem 1 caps m1 h1
    have hm2 := lookupCap_mem 2 caps m2 h2
    obtain ⟨a, b⟩ := p
    split at hp
    · rcases mapInsert_mem m1 m2 acc a b hp with heq | hmem
      · rcases hcaps with hc | hc
        · exact .inl (by rw [show a = m1 from congrArg Prod.fst heq]; exact hc _ hm1 rfl)
        · exact .inr (by rw [show b = m2 from congrArg Prod.snd heq]; exact hc _ hm2 rfl)
      · exact hacc _ hmem
    · rcases mapInsert_mem m2 m1 acc a b hp with heq | hmem
      · rcases hcaps with hc | hc
        · exact .inr (by rw [show b = m1 from congrArg Prod.snd heq]; exact hc _ hm1 rfl)
        · exact .inl (by rw [show a = m2 from congrArg Prod.fst heq]; exact hc _ hm2 rfl)
      · exact hacc _ hmem
  case h_2 => exact hacc p hp

theorem foldl_processHTMLMatch_sound (capsList : List Caps) (acc : List (Str × Str))
    (hacc : ∀ p ∈ acc, p.1 ∈ samlNameAlts ∨ p.2 ∈ samlNameAlts)
    (hl : ∀ caps ∈ capsList, (∀ q ∈ caps, q.1 = 1 → q.2 ∈ samlNameAlts) ∨
          (∀ q ∈ caps, q.1 = 2 → q.2 ∈ samlNameAlts)) :
    ∀ p ∈ capsList.foldl processHTMLMatch acc, p.1 ∈ samlNameAlts ∨ p.2 ∈ samlNameAlts := by
  induction capsList generalizing acc with
  | nil => intro p hp; exact hacc p hp
  | cons caps rest ih =>
    intro p hp
    rw [List.foldl_cons] at hp
    exact ih (processHTMLMatch acc caps)
      (processHTMLMatch_sound acc caps hacc (hl caps (List.mem_cons_self _ _)))
      (fun c hc => hl c (List.mem_cons_of_mem _ hc)) p hp

theorem extractSAMLFromHTML_sound (html : Str) (k v : Str)
    (h : (k, v) ∈ extractSAMLFromHTML html) :
    k ∈ samlNameAlts ∨ v ∈ samlNameAlts := by
  unfold extractSAMLFromHTML at h
  have h1 : ∀ caps ∈ findAllCaps htmlPattern1 (html.length + 1) html,
      (∀ q ∈ caps, q.1 = 1 → q.2 ∈ samlNameAlts) ∨
        (∀ q ∈ caps, q.1 = 2 → q.2 ∈ samlNameAlts) :=
    fun caps hc => .inl (findAllCaps_capsOK (fun i v => i = 1 → v ∈ samlNameAlts)
      htmlPattern1 (matchSeq_capsOK (fun i v => i = 1 → v ∈ samlNameAlts)
        htmlPattern1 htmlPattern1_hp) _ _ caps hc)
  have h2 : ∀ caps ∈ findAllCaps htmlPattern2 (html.length + 1) html,
      (∀ q ∈ caps, q.1 = 1 → q.2 ∈ samlNameAlts) ∨
        (∀ q ∈ caps, q.1 = 2 → q.2 ∈ samlNameAlts) :=
    fun caps hc => .inr (findAllCaps_capsOK (fun i v => i = 2 → v ∈ samlNameAlts)
      htmlPattern2 (matchSeq_capsOK (fun i v => i = 2 → v ∈ samlNameAlts)
        htmlPattern2 htmlPattern2_hp) _ _ caps hc)
  have hacc1 := foldl_processHTMLMatch_sound _ [] (by simp) h1
  exact foldl_processHTMLMatch_sound _ _ hacc1 h2 (k, v) h

/-- C7 counterexample: `LogoutRequest` is on the `isSAMLParameter` allow-list
the claim cites, yet a hidden form field with that name is not extracted by
the regex scan (the patterns hard-code only
`SAMLResponse|SAMLRequest|SAMLAssertion`, case-sensitively). -/
theorem c7_counterexample :
    isSAMLParameter (str "LogoutRequest") = true ∧
    extractSAMLFromHTML
      (str "<input type=\"hidden\" name=\"LogoutRequest\" value=\"Zm9v\"/>") = [] :=
  ⟨rfl, rfl⟩

/-- C7 amended: the regex scan of a response body uses two complementary
patterns covering either attribute order, but its name alternation is the
case-sensitive three-name list `SAMLResponse|SAMLRequest|SAMLAssertion` only:
every extracted entry carries one of those three names (as its name, or — in
the swapped corner case where the value itself begins with `SAML` — as its
value), and both attribute orders are extracted on concrete fields. -/
theorem c7_amended_regex_scan :
    (∀ html k v, (k, v) ∈ extractSAMLFromHTML html →
      k ∈ samlNameAlts ∨ v ∈ samlNameAlts) ∧
    extractSAMLFromHTML
      (str "<input type=\"hidden\" name=\"SAMLResponse\" value=\"AAAA\"/>") =
      [(str "SAMLResponse", str "AAAA")] ∧
    extractSAMLFromHTML
      (str "<input type=\"hidden\" value=\"BBBB\" name=\"SAMLRequest\"/>") =
      [(str "SAMLRequest", str "BBBB")] :=
  ⟨fun html k v h => extractSAMLFromHTML_sound html k v h, rfl, rfl⟩

/-- C7 witness for the amended soundness statement, at a concrete extracted
field. -/
theorem c7_amended_regex_scan_witness :
    str "SAMLResponse" ∈ samlNameAlts ∨ str "AAAA" ∈ samlNameAlts :=
  c7_amended_regex_scan.1
    (str "<input type=\"hidden\" name=\"SAMLResponse\" value=\"AAAA\"/>")
    (str "SAMLResponse") (str "AAAA") (by decide)

/-! ## Claim C1: index threading -/

/-- The extractor invariant: a produced block carries the consecutive indices
starting at `i`, and leaves the counter advanced by its length. -/
def IndexedFrom (i : Nat) (p : List ExtractedSAML × Nat) : Prop :=
  p.1.map (·.Index) = List.range' i p.1.length ∧ p.2 = i + p.1.length

theorem IndexedFrom.nil (i : Nat) : IndexedFrom i ([], i) :=
  ⟨rfl, (Nat.add_zero i).symm⟩

theorem IndexedFrom.append {i : Nat} {a b : List ExtractedSAML × Nat}
    (ha : IndexedFrom i a) (hb : IndexedFrom a.2 b) :
    IndexedFrom i (a.1 ++ b.1, b.2) := by
  obtain ⟨ha1, ha2⟩ := ha
  obtain ⟨hb1, hb2⟩ := hb
  rw [ha2] at hb1 hb2
  constructor
  · show (a.1 ++ b.1).map (·.Index) = List.range' i (a.1 ++ b.1).length
    rw [List.map_append, ha1, hb1, List.length_append, ← range'_app]
  · show b.2 = i + (a.1 ++ b.1).length
    rw [hb2, List.length_append]
    omega

theorem tryExtractSAML_spec (v n u src : Str) (i : Nat) :
    tryExtractSAML v n u src i = (none, i) ∨
    ∃ r, tryExtractSAML v n u src i = (some r, i + 1) ∧ r.Index = i := by
  unfold tryExtractSAML
  cases tryDecodeCandidate v with
  | none => exact .inl rfl
  | some t =>
    obtain ⟨v', x, w⟩ := t
    exact .inr ⟨_, rfl, rfl⟩

theorem extractParamLoop_indexed (pairs : List (Str × Str)) (u src : Str) :
    ∀ i, IndexedFrom i (extractParamLoop pairs u src i) := by
  induction pairs with
  | nil => intro i; exact ⟨rfl, (Nat.add_zero i).symm⟩
  | cons p rest ih =>
    intro i
    obtain ⟨n, v⟩ := p
    rw [extractParamLoop]
    by_cases hs : isSAMLParameter n = true
    · rw [if_pos hs]
      rcases tryExtractSAML_spec v n u src i with h | ⟨r, h, hr⟩
      · simp only [h]
        exact ih i
      · simp only [h]
        obtain ⟨h1, h2⟩ := ih (i + 1)
        constructor
        · show r.Index :: (extractParamLoop rest u src (i + 1)).1.map (·.Index) =
            List.range' i ((extractParamLoop rest u src (i + 1)).1.length + 1)
          rw [hr, h1, List.range'_succ]
        · show (extractParamLoop rest u src (i + 1)).2 =
            i + ((extractParamLoop rest u src (i + 1)).1.length + 1)
          omega
    · rw [if_neg hs]
      exact ih i

theorem extractHTMLLoop_indexed (pairs : List (Str × Str)) (u : Str) :
    ∀ i, IndexedFrom i (extractHTMLLoop pairs u i) := by
  induction pairs with
  | nil => intro i; exact ⟨rfl, (Nat.add_zero i).symm⟩
  | cons p rest ih =>
    intro i
    obtain ⟨n, v⟩ := p
    rw [extractHTMLLoop]
    rcases tryExtractSAML_spec v n u (str "response-body") i with h | ⟨r, h, hr⟩
    · simp only [h]
      exact ih i
    · simp only [h]
      obtain ⟨h1, h2⟩ := ih (i + 1)
      constructor
      · show r.Index :: (extractHTMLLoop rest u (i + 1)).1.map (·.Index) =
          List.range' i ((extractHTMLLoop rest u (i + 1)).1.length + 1)
        rw [hr, h1, List.range'_succ]
      · show (extractHTMLLoop rest u (i + 1)).2 =
          i + ((extractHTMLLoop rest u (i + 1)).1.length + 1)
        omega

theorem extractRawCandidate_indexed (text u src : Str) (i : Nat) :
    IndexedFrom i (extractRawCandidate text u src i) := by
  unfold extractRawCandidate
  rcases tryExtractSAML_spec text [] u src i with h | ⟨r, h, hr⟩
  · simp only [h]
    exact ⟨rfl, (Nat.add_zero i).symm⟩
  · simp only [h]
    exact ⟨by simp [hr, List.range'], rfl⟩

theorem extractFromQueryParams_indexed (params : List HARNameValue) (u : Str) (i : Nat) :
    IndexedFrom i (extractFromQueryParams params u i) :=
  IndexedFrom.append (extractParamLoop_indexed _ u _ i) (extractParamLoop_indexed _ u _ _)

theorem extractFromPostData_indexed (pd : HARPostData) (u : Str) (i : Nat) :
    IndexedFrom i (extractFromPostData pd u i) :=
  IndexedFrom.append
    (IndexedFrom.append (extractParamLoop_indexed _ u _ i) (extractParamLoop_indexed _ u _ _))
    (extractRawCandidate_indexed _ u _ _)

theorem extractFromResponseBody_indexed (content : HARContent) (u : Str) (i : Nat) :
    IndexedFrom i (extractFromResponseBody content u i) := by
  unfold extractFromResponseBody
  by_cases h : content.text = []
  · rw [if_pos h]
    exact ⟨rfl, (Nat.add_zero i).symm⟩
  · rw [if_neg h]
    exact IndexedFrom.append (extractHTMLLoop_indexed _ u i) (extractRawCandidate_indexed _ u _ _)

theorem extractFromEntry_indexed (entry : HAREntry) (i : Nat) :
    IndexedFrom i (extractFromEntry entry i) := by
  unfold extractFromEntry
  cases hpd : entry.request.postData with
  | none =>
    simp only [hpd]
    exact IndexedFrom.append
      (IndexedFrom.append (extractFromQueryParams_indexed _ _ i) (IndexedFrom.nil _))
      (extractFromResponseBody_indexed _ _ _)
  | some pd =>
    simp only [hpd]
    exact IndexedFrom.append
      (IndexedFrom.append (extractFromQueryParams_indexed _ _ i)
        (extractFromPostData_indexed pd _ _))
      (extractFromResponseBody_indexed _ _ _)

theorem extractEntriesLoop_indexed (entries : List HAREntry) :
    ∀ i, IndexedFrom i (extractEntriesLoop entries i) := by
  induction entries with
  | nil => intro i; exact ⟨rfl, (Nat.add_zero i).symm⟩
  | cons e rest ih =>
    intro i
    rw [extractEntriesLoop]
    exact IndexedFrom.append (extractFromEntry_indexed e i) (ih _)

/-- C1: for every capture document whose top-level JSON parses (modelled as a
structured `HAR` value), the results of `ExtractFromHAR` — produced in
traversal order: entry order, and query parameters, then POST body, then
response body within an entry — carry the index values exactly
`1, 2, …, N` in output order, with no gaps or repeats. -/
theorem c1_extract_from_har_indices (har : HAR) :
    (ExtractFromHAR har).map (·.Index) = List.range' 1 (ExtractFromHAR har).length :=
  (extractEntriesLoop_indexed har.log.entries 1).1

/-! ## Claim C9 -/

/-- C9: when an allow-listed parameter appears with the same name and value
both in the request URL's query string and in the entry's `queryString`
array, and the value decodes to accepted SAML, `ExtractFromHAR` emits two
separate results for that one logical candidate, with the distinct
consecutive indices 1 and 2 (the URL-derived occurrence first). -/
theorem c9_url_and_array_duplicate (name value url mime v' : Str) (x : Bytes) (w : Bool)
    (hurl : urlQueryPairs url = [(name, value)])
    (hsaml : isSAMLParameter name = true)
    (hc : tryDecodeCandidate value = some (v', x, w)) :
    ExtractFromHAR
      ⟨⟨[{ request := { method := [], url := url, postData := none
                      , queryString := [⟨name, value⟩] }
         , response := { content := { mimeType := mime, text := [] } } }]⟩⟩ =
      [{ Index := 1, Typ := detectSAMLType x, Source := str "request-query", URL := url
       , ParameterName := name, RawValue := v', DecodedXML := x, WasDeflated := w },
       { Index := 2, Typ := detectSAMLType x, Source := str "request-query", URL := url
       , ParameterName := name, RawValue := v', DecodedXML := x, WasDeflated := w }] := by
  have ht : ∀ i : Nat, tryExtractSAML value name url (str "request-query") i =
      (some { Index := i, Typ := detectSAMLType x, Source := str "request-query", URL := url
            , ParameterName := name, RawValue := v', DecodedXML := x, WasDeflated := w },
        i + 1) := by
    intro i
    unfold tryExtractSAML
    rw [hc]
  simp only [ExtractFromHAR, extractEntriesLoop, extractFromEntry, extractFromQueryParams,
    extractFromResponseBody, nvPairs, List.map_cons, List.map_nil, hurl, extractParamLoop,
    hsaml, if_true, ht, extractRawCandidate, if_pos rfl]
  simp

/-- C9 witness: one entry whose URL query string and `queryString` array both
carry the same `SAMLRequest` value. -/
theorem c9_url_and_array_duplicate_witness :
    ExtractFromHAR
      ⟨⟨[{ request := { method := []
                      , url := str "https://sp.example.com/acs?SAMLRequest=PFJlc3BvbnNlLz4="
                      , postData := none
                      , queryString := [⟨str "SAMLRequest", str "PFJlc3BvbnNlLz4="⟩] }
         , response := { content := { mimeType := str "text/html", text := [] } } }]⟩⟩ =
      [{ Index := 1, Typ := detectSAMLType (bstr "<Response/>"), Source := str "request-query"
       , URL := str "https://sp.example.com/acs?SAMLRequest=PFJlc3BvbnNlLz4="
       , ParameterName := str "SAMLRequest", RawValue := str "PFJlc3BvbnNlLz4="
       , DecodedXML := bstr "<Response/>", WasDeflated := false },
       { Index := 2, Typ := detectSAMLType (bstr "<Response/>"), Source := str "request-query"
       , URL := str "https://sp.example.com/acs?SAMLRequest=PFJlc3BvbnNlLz4="
       , ParameterName := str "SAMLRequest", RawValue := str "PFJlc3BvbnNlLz4="
       , DecodedXML := bstr "<Response/>", WasDeflated := false }] :=
  c9_url_and_array_duplicate (str "SAMLRequest") (str "PFJlc3BvbnNlLz4=")
    (str "https://sp.example.com/acs?SAMLRequest=PFJlc3BvbnNlLz4=") (str "text/html")
    (str "PFJlc3BvbnNlLz4=") (bstr "<Response/>") false rfl rfl rfl

/-! ## Claims C2 and C8: the partial response parser -/

set_option maxRecDepth 65536

theorem parseResponsePartial_ok (raw : Str) (x : Xml)
    (hx : xmlParse raw = some x) (hroot : x.localName = str "Response") :
    parseResponsePartial raw = .ok
      { SAMLInfo.empty with
        Typ := str "Response (Encrypted)"
      , ID := attrNamed "ID" x
      , Destination := attrNamed "Destination" x
      , InResponseTo := attrNamed "InResponseTo" x
      , Issuer := childText "Issuer" x
      , IssueInstant := parseTimeField (attrNamed "IssueInstant" x)
      , Status :=
          parseStatusField (((lastChildNamed "Status" x).map unmarshalStatus).getD ⟨[], []⟩)
      , Signature :=
          ((lastChildNamed "Signature" x).map unmarshalSignature).map parseSignature } := by
  unfold parseResponsePartial
  rw [hx]
  dsimp only
  rw [unmarshalResponse, if_pos hroot]

theorem parsePartial_response_dispatch (raw : Str)
    (hdisp : containsSub (trimSpace raw) (str "<samlp:Response") = true ∨
             containsSub (trimSpace raw) (str "<Response") = true) :
    ParsePartial raw = parseResponsePartial raw := by
  unfold ParsePartial
  rw [if_pos hdisp]

/-- C2 counterexample: a well-formed, `saml2p:`-prefixed Response whose
assertion subtree is encrypted.  Its serialization contains neither
`<samlp:Response` nor `<Response`, so `ParsePartial` falls through to the
regular `Parse` path and tags the record `"Response"`, not the distinct
marker `"Response (Encrypted)"` the claim requires for every Response-shaped
input. -/
def c2CexRaw : Str :=
  str "<saml2p:Response xmlns:saml2p=\"urn:oasis:names:tc:SAML:2.0:protocol\" ID=\"_r2\" Destination=\"https://sp\"><saml2:Issuer xmlns:saml2=\"urn:x\">https://idp</saml2:Issuer><saml2p:Status><saml2p:StatusCode Value=\"urn:oasis:names:tc:SAML:2.0:status:Success\"/></saml2p:Status><saml2:EncryptedAssertion>x</saml2:EncryptedAssertion></saml2p:Response>"

/-- C2 counterexample theorem: the input is well-formed and Response-shaped
(root local name `Response`), yet `ParsePartial` succeeds with type tag
`"Response"`, not `"Response (Encrypted)"`. -/
theorem c2_counterexample :
    ((xmlParse c2CexRaw).map Xml.localName) = some (str "Response") ∧
    (( ParsePartial c2CexRaw).toOption.map fun i => i.Typ) = some (str "Response") ∧
    str "Response" ≠ str "Response (Encrypted)" :=
  ⟨rfl, rfl, by decide⟩

/-- C2 amended: for every well-formed Response-shaped input that also
contains one of the dispatch markers `<samlp:Response` / `<Response`,
`ParsePartial` succeeds; the record carries the distinct tag
`"Response (Encrypted)"`, the input's ID, Issuer and Destination verbatim
(hence non-absent whenever present in the input), a non-absent Status
whenever the input has a `StatusCode` value, a non-absent Signature whenever
the input has a `Signature` subtree, and no nested assertion — so it never
fails because the assertion subtree cannot be parsed. -/
theorem c2_amended_partial_parse (raw : Str) (x : Xml)
    (hx : xmlParse raw = some x)
    (hroot : x.localName = str "Response")
    (hdisp : containsSub (trimSpace raw) (str "<samlp:Response") = true ∨
             containsSub (trimSpace raw) (str "<Response") = true) :
    ∃ info, ParsePartial raw = .ok info ∧
      info.Typ = str "Response (Encrypted)" ∧
      info.ID = attrNamed "ID" x ∧
      info.Issuer = childText "Issuer" x ∧
      info.Destination = attrNamed "Destination" x ∧
      ((((lastChildNamed "Status" x).map unmarshalStatus).getD ⟨[], []⟩).statusCodeValue ≠ [] →
        info.Status.isSome = true) ∧
      ((lastChildNamed "Signature" x).isSome = true → info.Signature.isSome = true) ∧
      info.Assertion = none := by
  rw [parsePartial_response_dispatch raw hdisp, parseResponsePartial_ok raw x hx hroot]
  refine ⟨_, rfl, rfl, rfl, rfl, rfl, ?_, ?_, rfl⟩
  · intro hne
    show (parseStatusField _).isSome = true
    unfold parseStatusField
    rw [if_pos hne]
    rfl
  · intro hsig
    cases hl : lastChildNamed "Signature" x with
    | none => rw [hl] at hsig; simp at hsig
    | some s => rfl

/-- C2 witness input: a `samlp:`-prefixed Response with an encrypted
assertion subtree. -/
def c2WitnessRaw : Str :=
  str "<samlp:Response ID=\"_w2\" Destination=\"https://sp\"><samlp:Status><samlp:StatusCode Value=\"urn:ok:Success\"/></samlp:Status><samlp:EncryptedAssertion></samlp:EncryptedAssertion></samlp:Response>"

/-- The parse tree of `c2WitnessRaw`. -/
def c2WitnessXml : Xml :=
  Xml.elem (str "samlp") (str "Response")
    [(str "ID", str "_w2"), (str "Destination", str "https://sp")]
    [Xml.elem (str "samlp") (str "Status") []
       [Xml.elem (str "samlp") (str "StatusCode") [(str "Value", str "urn:ok:Success")] []],
     Xml.elem (str "samlp") (str "EncryptedAssertion") [] []]

/-- C2 witness: the amended theorem applied to the concrete encrypted
response. -/
theorem c2_amended_partial_parse_witness :
    ∃ info, ParsePartial c2WitnessRaw = .ok info ∧
      info.Typ = str "Response (Encrypted)" ∧
      info.ID = attrNamed "ID" c2WitnessXml ∧
      info.Issuer = childText "Issuer" c2WitnessXml ∧
      info.Destination = attrNamed "Destination" c2WitnessXml ∧
      ((((lastChildNamed "Status" c2WitnessXml).map unmarshalStatus).getD
          ⟨[], []⟩).statusCodeValue ≠ [] → info.Status.isSome = true) ∧
      ((lastChildNamed "Signature" c2WitnessXml).isSome = true →
        info.Signature.isSome = true) ∧
      info.Assertion = none :=
  c2_amended_partial_parse c2WitnessRaw c2WitnessXml rfl rfl (.inl rfl)

/-- C8 counterexample input: a `saml2p:`-prefixed Response with a plaintext,
fully parseable assertion. -/
def c8CexRaw : Str :=
  str "<saml2p:Response xmlns:saml2p=\"urn:p\" ID=\"_r8\"><saml2:Assertion xmlns:saml2=\"urn:a\" ID=\"_a8\"></saml2:Assertion></saml2p:Response>"

/-- C8 counterexample theorem: on this Response-shaped input `ParsePartial`
returns type `"Response"` (not `"Response (Encrypted)"`) and a *present*
nested Assertion child — both conjuncts of the claim fail. -/
theorem c8_counterexample :
    ((xmlParse c8CexRaw).map Xml.localName) = some (str "Response") ∧
    (( ParsePartial c8CexRaw).toOption.map fun i => (i.Typ, i.Assertion.map fun a => a.ID)) =
      some (str "Response", some (str "_a8")) ∧
    str "Response" ≠ str "Response (Encrypted)" :=
  ⟨rfl, rfl, by decide⟩

/-- C8 amended: for every Response-shaped input containing a dispatch marker
(`<samlp:Response` / `<Response`), `ParsePartial` returns the tag
`"Response (Encrypted)"` and an absent nested Assertion — even when the
input contains a plaintext, fully parseable Assertion subtree (no assumption
about the assertion subtree appears below). -/
theorem c8_amended_partial_always_encrypted_tag (raw : Str) (x : Xml)
    (hx : xmlParse raw = some x)
    (hroot : x.localName = str "Response")
    (hdisp : containsSub (trimSpace raw) (str "<samlp:Response") = true ∨
             containsSub (trimSpace raw) (str "<Response") = true) :
    ∃ info, ParsePartial raw = .ok info ∧
      info.Typ = str "Response (Encrypted)" ∧
      info.Assertion = none := by
  rw [parsePartial_response_dispatch raw hdisp, parseResponsePartial_ok raw x hx hroot]
  exact ⟨_, rfl, rfl, rfl⟩

/-- C8 witness input: a `samlp:`-prefixed Response with a plaintext
assertion. -/
def c8WitnessRaw : Str :=
  str "<samlp:Response ID=\"_w8\"><saml:Assertion ID=\"_wa\"><saml:Issuer>idp</saml:Issuer></saml:Assertion></samlp:Response>"

/-- The parse tree of `c8WitnessRaw`. -/
def c8WitnessXml : Xml :=
  Xml.elem (str "samlp") (str "Response") [(str "ID", str "_w8")]
    [Xml.elem (str "saml") (str "Assertion") [(str "ID", str "_wa")]
       [Xml.elem (str "saml") (str "Issuer") [] [Xml.txt (str "idp")]]]

/-- C8 witness: even with a plaintext parseable assertion in the input, the
partial parse tags the record `"Response (Encrypted)"` and attaches no
nested assertion. -/
theorem c8_amended_partial_always_encrypted_tag_witness :
    ∃ info, ParsePartial c8WitnessRaw = .ok info ∧
      info.Typ = str "Response (Encrypted)" ∧
      info.Assertion = none :=
  c8_amended_partial_always_encrypted_tag c8WitnessRaw c8WitnessXml rfl rfl (.inl rfl)
